import Mathlib

/-!
Verification development for the sshgate repository: a shallow embedding of
the routing registry, the public-key auth callback, the global-request pump,
the agent-forwarding initial-request window, the deterministic host-key
derivation, and the bidirectional channel proxy, together with theorems
settling the stated properties.
-/

namespace SSHGate

/-! ## Association lists

Go maps are modelled as association lists with insert-or-replace and erase.
Pointer-valued maps (`map[string]*DevboxInfo`) are modelled by storing heap
addresses (`Nat`) as values together with an explicit heap, so that the
aliasing between the two registry indexes is represented faithfully.
-/

def lookupA {κ α : Type} [DecidableEq κ] : List (κ × α) → κ → Option α
  | [], _ => none
  | (k, v) :: rest, k0 => if k = k0 then some v else lookupA rest k0

def insertA {κ α : Type} [DecidableEq κ] : List (κ × α) → κ → α → List (κ × α)
  | [], k0, v0 => [(k0, v0)]
  | (k, v) :: rest, k0, v0 =>
      if k = k0 then (k0, v0) :: rest else (k, v) :: insertA rest k0 v0

def eraseA {κ α : Type} [DecidableEq κ] : List (κ × α) → κ → List (κ × α)
  | [], _ => []
  | (k, v) :: rest, k0 => if k = k0 then rest else (k, v) :: eraseA rest k0

theorem lookupA_insertA {κ α : Type} [DecidableEq κ]
    (m : List (κ × α)) (k v k0) :
    lookupA (insertA m k v) k0 = if k = k0 then some v else lookupA m k0 := by
  induction m with
  | nil => by_cases h : k = k0 <;> simp [insertA, lookupA, h]
  | cons p rest ih =>
      obtain ⟨k1, v1⟩ := p
      by_cases h1 : k1 = k
      · subst h1
        by_cases h0 : k1 = k0 <;> simp [insertA, lookupA, h0]
      · by_cases h0 : k1 = k0
        · subst h0
          have : ¬ k = k1 := fun h => h1 h.symm
          simp [insertA, lookupA, h1, this]
        · simp [insertA, lookupA, h1, h0, ih]

theorem lookupA_insertA_self {κ α : Type} [DecidableEq κ]
    (m : List (κ × α)) (k v) :
    lookupA (insertA m k v) k = some v := by
  simp [lookupA_insertA]

theorem lookupA_insertA_ne {κ α : Type} [DecidableEq κ]
    (m : List (κ × α)) (k v k0) (h : k ≠ k0) :
    lookupA (insertA m k v) k0 = lookupA m k0 := by
  simp [lookupA_insertA, h]

theorem mem_insertA {κ α : Type} [DecidableEq κ]
    (m : List (κ × α)) (k v p) (hp : p ∈ insertA m k v) :
    p ∈ m ∨ p = (k, v) := by
  induction m with
  | nil => simp [insertA] at hp; right; exact hp
  | cons q rest ih =>
      obtain ⟨k1, v1⟩ := q
      by_cases h1 : k1 = k
      · subst h1
        simp [insertA] at hp
        rcases hp with h | h
        · right; simp [h]
        · left; simp [h]
      · simp [insertA, h1] at hp
        rcases hp with h | h
        · left; simp [h]
        · rcases ih h with h2 | h2
          · left; simp [h2]
          · right; exact h2

theorem mem_eraseA {κ α : Type} [DecidableEq κ]
    (m : List (κ × α)) (k p) (hp : p ∈ eraseA m k) : p ∈ m := by
  induction m with
  | nil => simp [eraseA] at hp
  | cons q rest ih =>
      obtain ⟨k1, v1⟩ := q
      by_cases h1 : k1 = k
      · subst h1
        simp [eraseA] at hp
        simp [hp]
      · simp [eraseA, h1] at hp
        rcases hp with h | h
        · simp [h]
        · simp [ih h]

theorem lookupA_mem {κ α : Type} [DecidableEq κ]
    (m : List (κ × α)) (k v) (h : lookupA m k = some v) : (k, v) ∈ m := by
  induction m with
  | nil => simp [lookupA] at h
  | cons q rest ih =>
      obtain ⟨k1, v1⟩ := q
      by_cases h1 : k1 = k
      · subst h1
        simp [lookupA] at h
        simp [h]
      · simp [lookupA, h1] at h
        simp [ih h]

/-! ## Registry data model (src registry package)

`DevboxInfo` mirrors the Go struct.  The opaque library types
`ssh.PublicKey` and `ssh.Signer` are modelled as `Nat` values produced only
by the (abstract) parse functions of `SSHLib`; a Go `nil` interface value is
`Option.none`.
-/

abbrev PubKey := Nat

abbrev Signer := Nat

structure DevboxInfo where
  Namespace : String
  DevboxName : String
  PodIP : String
  PublicKey : Option PubKey
  PrivateKey : Option Signer
  Fingerprint : String
deriving DecidableEq

structure OwnerReference where
  Kind : String
  Name : String
deriving DecidableEq

structure Secret where
  Namespace : String
  Name : String
  Labels : List (String × String)
  OwnerReferences : List OwnerReference
  Data : List (String × String)
deriving DecidableEq

structure PodStatus where
  PodIP : String
deriving DecidableEq

structure Pod where
  Namespace : String
  Name : String
  Labels : List (String × String)
  OwnerReferences : List OwnerReference
  Status : PodStatus
deriving DecidableEq

def DevboxPublicKeyField : String := "SEALOS_DEVBOX_PUBLIC_KEY"

def DevboxPrivateKeyField : String := "SEALOS_DEVBOX_PRIVATE_KEY"

def DevboxPartOfLabel : String := "app.kubernetes.io/part-of"

def DevboxPartOfValue : String := "devbox"

def DevboxOwnerKind : String := "Devbox"

/-- Abstract interface of the external x/crypto/ssh parsing functions used by
the registry.  `fingerprintHash` is the base64 digest part of the standard
fingerprint encoding; `FingerprintSHA256` prepends the constant prefix the
library uses. -/
structure SSHLib where
  parseAuthorizedKey : String → Option PubKey
  fingerprintHash : PubKey → String
  parsePrivateKey : String → Option Signer

def FingerprintSHA256 (L : SSHLib) (pk : PubKey) : String :=
  "SHA256:" ++ L.fingerprintHash pk

/-- Go map indexing on a `map[string]string` returns the empty string for a
missing key. -/
def labelValue (labels : List (String × String)) (k : String) : String :=
  (lookupA labels k).getD ""

def getDevboxNameFromOwnerReferences (refs : List OwnerReference) : String :=
  match refs.find? (fun r => r.Kind = DevboxOwnerKind) with
  | some r => r.Name
  | none => ""

/-- The registry state: both Go maps store pointers to shared `DevboxInfo`
records, modelled as addresses into an explicit heap.  `nextAddr` is the
allocator for fresh records. -/
structure Registry where
  heap : List (Nat × DevboxInfo)
  nextAddr : Nat
  fingerprintToDevbox : List (String × Nat)
  devboxToInfo : List (String × Nat)
deriving DecidableEq

def Registry.New : Registry :=
  { heap := [], nextAddr := 0, fingerprintToDevbox := [], devboxToInfo := [] }

def devboxKey (ns name : String) : String := ns ++ "/" ++ name

/-- In-place mutation of the record a pointer refers to: the credential field
assignments of `AddSecret`. -/
def setCredFields (heap : List (Nat × DevboxInfo)) (addr : Nat)
    (pk : PubKey) (sk : Option Signer) (fp : String) : List (Nat × DevboxInfo) :=
  match lookupA heap addr with
  | some i =>
      insertA heap addr { i with PublicKey := some pk, PrivateKey := sk, Fingerprint := fp }
  | none => heap

/-- In-place mutation of the `PodIP` field. -/
def setPodIP (heap : List (Nat × DevboxInfo)) (addr : Nat) (ip : String) :
    List (Nat × DevboxInfo) :=
  match lookupA heap addr with
  | some i => insertA heap addr { i with PodIP := ip }
  | none => heap

/-- The private-key parse step of `AddSecret`: the parse result of the
private-key field, `none` when the field is absent or fails to parse. -/
def parsedPrivateKey (L : SSHLib) (secret : Secret) : Option Signer :=
  match lookupA secret.Data DevboxPrivateKeyField with
  | some d => L.parsePrivateKey d
  | none => none

/-- `Registry.AddSecret` from the registry package: processes a credential
Secret.  Returns the new state and an error (`some msg`) when the event is
rejected. -/
def Registry.AddSecret (L : SSHLib) (r : Registry) (secret : Secret) :
    Registry × Option String :=
  if labelValue secret.Labels DevboxPartOfLabel ≠ DevboxPartOfValue then
    (r, none)
  else
    match lookupA secret.Data DevboxPublicKeyField with
    | none =>
        (r, some ("secret " ++ secret.Namespace ++ "/" ++ secret.Name ++
          " missing " ++ DevboxPublicKeyField))
    | some publicKeyData =>
        match L.parseAuthorizedKey publicKeyData with
        | none => (r, some "failed to parse public key")
        | some publicKey =>
            let fingerprint := FingerprintSHA256 L publicKey
            let devboxName := getDevboxNameFromOwnerReferences secret.OwnerReferences
            if devboxName = "" then
              (r, some ("secret " ++ secret.Namespace ++ "/" ++ secret.Name ++
                " has no Devbox owner"))
            else
              let privateKey : Option Signer := parsedPrivateKey L secret
              let key := devboxKey secret.Namespace devboxName
              match lookupA r.devboxToInfo key with
              | some addr =>
                  let heap1 := setCredFields r.heap addr publicKey privateKey fingerprint
                  ({ r with
                      heap := heap1,
                      fingerprintToDevbox := insertA r.fingerprintToDevbox fingerprint addr },
                    none)
              | none =>
                  let addr := r.nextAddr
                  let info : DevboxInfo :=
                    { Namespace := secret.Namespace, DevboxName := devboxName,
                      PodIP := "", PublicKey := some publicKey,
                      PrivateKey := privateKey, Fingerprint := fingerprint }
                  ({ heap := insertA r.heap addr info,
                      nextAddr := addr + 1,
                      fingerprintToDevbox := insertA r.fingerprintToDevbox fingerprint addr,
                      devboxToInfo := insertA r.devboxToInfo key addr },
                    none)

/-- `Registry.DeleteSecret`: removes a credential from both indexes.  Note:
the source performs no part-of label check here. -/
def Registry.DeleteSecret (r : Registry) (secret : Secret) : Registry :=
  let devboxName := getDevboxNameFromOwnerReferences secret.OwnerReferences
  if devboxName = "" then r
  else
    let key := devboxKey secret.Namespace devboxName
    match lookupA r.devboxToInfo key with
    | some addr =>
        match lookupA r.heap addr with
        | some info =>
            { r with
                fingerprintToDevbox := eraseA r.fingerprintToDevbox info.Fingerprint,
                devboxToInfo := eraseA r.devboxToInfo key }
        | none => r
    | none => r

/-- `Registry.UpdatePod`: records the pod IP for a devbox, creating a shell
record when none exists. -/
def Registry.UpdatePod (r : Registry) (pod : Pod) : Registry × Option String :=
  if labelValue pod.Labels DevboxPartOfLabel ≠ DevboxPartOfValue then
    (r, none)
  else
    let devboxName := getDevboxNameFromOwnerReferences pod.OwnerReferences
    if devboxName = "" then
      (r, some ("pod " ++ pod.Namespace ++ "/" ++ pod.Name ++ " has no Devbox owner"))
    else if pod.Status.PodIP = "" then
      (r, none)
    else
      let key := devboxKey pod.Namespace devboxName
      match lookupA r.devboxToInfo key with
      | some addr => ({ r with heap := setPodIP r.heap addr pod.Status.PodIP }, none)
      | none =>
          let addr := r.nextAddr
          let info : DevboxInfo :=
            { Namespace := pod.Namespace, DevboxName := devboxName,
              PodIP := pod.Status.PodIP, PublicKey := none,
              PrivateKey := none, Fingerprint := "" }
          ({ r with
              heap := insertA r.heap addr info,
              nextAddr := addr + 1,
              devboxToInfo := insertA r.devboxToInfo key addr },
            none)

/-- `Registry.DeletePod`: clears only the `PodIP` field of the matching
record.  The source performs no part-of label check here. -/
def Registry.DeletePod (r : Registry) (pod : Pod) : Registry :=
  let devboxName := getDevboxNameFromOwnerReferences pod.OwnerReferences
  if devboxName = "" then r
  else
    let key := devboxKey pod.Namespace devboxName
    match lookupA r.devboxToInfo key with
    | some addr => { r with heap := setPodIP r.heap addr "" }
    | none => r

/-- `Registry.GetByFingerprint`: dereferences the fingerprint-index pointer. -/
def Registry.GetByFingerprint (r : Registry) (fingerprint : String) : Option DevboxInfo :=
  (lookupA r.fingerprintToDevbox fingerprint).bind (lookupA r.heap)

/-- `Registry.GetDevboxInfo`: lookup by composite (namespace, devbox) key. -/
def Registry.GetDevboxInfo (r : Registry) (ns devboxName : String) : Option DevboxInfo :=
  (lookupA r.devboxToInfo (devboxKey ns devboxName)).bind (lookupA r.heap)

/-! ### Heap mutation lemmas -/

theorem setPodIP_none (heap : List (Nat × DevboxInfo)) (addr : Nat) (ip : String)
    (h : lookupA heap addr = none) : setPodIP heap addr ip = heap := by
  simp [setPodIP, h]

theorem lookupA_setPodIP_some (heap : List (Nat × DevboxInfo)) (addr : Nat) (ip : String)
    (a : Nat) (i : DevboxInfo) (h : lookupA heap addr = some i) :
    lookupA (setPodIP heap addr ip) a =
      if addr = a then some { i with PodIP := ip } else lookupA heap a := by
  simp [setPodIP, h, lookupA_insertA]

theorem setCredFields_none (heap : List (Nat × DevboxInfo)) (addr : Nat)
    (pk : PubKey) (sk : Option Signer) (fp : String)
    (h : lookupA heap addr = none) : setCredFields heap addr pk sk fp = heap := by
  simp [setCredFields, h]

theorem lookupA_setCredFields_some (heap : List (Nat × DevboxInfo)) (addr : Nat)
    (pk : PubKey) (sk : Option Signer) (fp : String) (a : Nat) (i : DevboxInfo)
    (h : lookupA heap addr = some i) :
    lookupA (setCredFields heap addr pk sk fp) a =
      if addr = a then
        some { i with PublicKey := some pk, PrivateKey := sk, Fingerprint := fp }
      else lookupA heap a := by
  simp [setCredFields, h, lookupA_insertA]

/-! ### Case characterizations of the registry operations -/

theorem addSecret_skip_label (L : SSHLib) (r : Registry) (secret : Secret)
    (h : labelValue secret.Labels DevboxPartOfLabel ≠ DevboxPartOfValue) :
    r.AddSecret L secret = (r, none) := by
  simp [Registry.AddSecret, h]

theorem addSecret_missing_key (L : SSHLib) (r : Registry) (secret : Secret)
    (hlab : labelValue secret.Labels DevboxPartOfLabel = DevboxPartOfValue)
    (hd : lookupA secret.Data DevboxPublicKeyField = none) :
    (r.AddSecret L secret).1 = r := by
  have hlab2 : ¬ labelValue secret.Labels DevboxPartOfLabel ≠ DevboxPartOfValue := by
    simp [hlab]
  simp [Registry.AddSecret, hlab2, hd]

theorem addSecret_parse_fail (L : SSHLib) (r : Registry) (secret : Secret) (d : String)
    (hlab : labelValue secret.Labels DevboxPartOfLabel = DevboxPartOfValue)
    (hd : lookupA secret.Data DevboxPublicKeyField = some d)
    (hp : L.parseAuthorizedKey d = none) :
    (r.AddSecret L secret).1 = r := by
  have hlab2 : ¬ labelValue secret.Labels DevboxPartOfLabel ≠ DevboxPartOfValue := by
    simp [hlab]
  simp [Registry.AddSecret, hlab2, hd, hp]

theorem addSecret_no_owner (L : SSHLib) (r : Registry) (secret : Secret) (d : String)
    (pk : PubKey)
    (hlab : labelValue secret.Labels DevboxPartOfLabel = DevboxPartOfValue)
    (hd : lookupA secret.Data DevboxPublicKeyField = some d)
    (hp : L.parseAuthorizedKey d = some pk)
    (hdn : getDevboxNameFromOwnerReferences secret.OwnerReferences = "") :
    (r.AddSecret L secret).1 = r := by
  have hlab2 : ¬ labelValue secret.Labels DevboxPartOfLabel ≠ DevboxPartOfValue := by
    simp [hlab]
  simp [Registry.AddSecret, hlab2, hd, hp, hdn]

theorem addSecret_existing (L : SSHLib) (r : Registry) (secret : Secret) (d : String)
    (pk : PubKey) (addr : Nat)
    (hlab : labelValue secret.Labels DevboxPartOfLabel = DevboxPartOfValue)
    (hd : lookupA secret.Data DevboxPublicKeyField = some d)
    (hp : L.parseAuthorizedKey d = some pk)
    (hdn : getDevboxNameFromOwnerReferences secret.OwnerReferences ≠ "")
    (hlk : lookupA r.devboxToInfo
      (devboxKey secret.Namespace
        (getDevboxNameFromOwnerReferences secret.OwnerReferences)) = some addr) :
    (r.AddSecret L secret).1 =
      { r with
          heap := setCredFields r.heap addr pk (parsedPrivateKey L secret)
            (FingerprintSHA256 L pk),
          fingerprintToDevbox :=
            insertA r.fingerprintToDevbox (FingerprintSHA256 L pk) addr } := by
  have hlab2 : ¬ labelValue secret.Labels DevboxPartOfLabel ≠ DevboxPartOfValue := by
    simp [hlab]
  simp [Registry.AddSecret, hlab2, hd, hp, hdn, hlk]

/-- The shell record allocated on the credential path. -/
def freshCredInfo (L : SSHLib) (secret : Secret) (pk : PubKey) : DevboxInfo :=
  { Namespace := secret.Namespace,
    DevboxName := getDevboxNameFromOwnerReferences secret.OwnerReferences,
    PodIP := "", PublicKey := some pk,
    PrivateKey := parsedPrivateKey L secret,
    Fingerprint := FingerprintSHA256 L pk }

theorem addSecret_fresh (L : SSHLib) (r : Registry) (secret : Secret) (d : String)
    (pk : PubKey)
    (hlab : labelValue secret.Labels DevboxPartOfLabel = DevboxPartOfValue)
    (hd : lookupA secret.Data DevboxPublicKeyField = some d)
    (hp : L.parseAuthorizedKey d = some pk)
    (hdn : getDevboxNameFromOwnerReferences secret.OwnerReferences ≠ "")
    (hlk : lookupA r.devboxToInfo
      (devboxKey secret.Namespace
        (getDevboxNameFromOwnerReferences secret.OwnerReferences)) = none) :
    (r.AddSecret L secret).1 =
      { heap := insertA r.heap r.nextAddr (freshCredInfo L secret pk),
        nextAddr := r.nextAddr + 1,
        fingerprintToDevbox :=
          insertA r.fingerprintToDevbox (FingerprintSHA256 L pk) r.nextAddr,
        devboxToInfo := insertA r.devboxToInfo
          (devboxKey secret.Namespace
            (getDevboxNameFromOwnerReferences secret.OwnerReferences)) r.nextAddr } := by
  have hlab2 : ¬ labelValue secret.Labels DevboxPartOfLabel ≠ DevboxPartOfValue := by
    simp [hlab]
  simp [Registry.AddSecret, hlab2, hd, hp, hdn, hlk, freshCredInfo]

theorem deleteSecret_no_owner (r : Registry) (secret : Secret)
    (hdn : getDevboxNameFromOwnerReferences secret.OwnerReferences = "") :
    r.DeleteSecret secret = r := by
  simp [Registry.DeleteSecret, hdn]

theorem deleteSecret_not_found (r : Registry) (secret : Secret)
    (hdn : getDevboxNameFromOwnerReferences secret.OwnerReferences ≠ "")
    (hlk : lookupA r.devboxToInfo
      (devboxKey secret.Namespace
        (getDevboxNameFromOwnerReferences secret.OwnerReferences)) = none) :
    r.DeleteSecret secret = r := by
  simp [Registry.DeleteSecret, hdn, hlk]

theorem deleteSecret_dangling (r : Registry) (secret : Secret) (addr : Nat)
    (hdn : getDevboxNameFromOwnerReferences secret.OwnerReferences ≠ "")
    (hlk : lookupA r.devboxToInfo
      (devboxKey secret.Namespace
        (getDevboxNameFromOwnerReferences secret.OwnerReferences)) = some addr)
    (hha : lookupA r.heap addr = none) :
    r.DeleteSecret secret = r := by
  simp [Registry.DeleteSecret, hdn, hlk, hha]

theorem deleteSecret_found (r : Registry) (secret : Secret) (addr : Nat) (i : DevboxInfo)
    (hdn : getDevboxNameFromOwnerReferences secret.OwnerReferences ≠ "")
    (hlk : lookupA r.devboxToInfo
      (devboxKey secret.Namespace
        (getDevboxNameFromOwnerReferences secret.OwnerReferences)) = some addr)
    (hha : lookupA r.heap addr = some i) :
    r.DeleteSecret secret =
      { r with
          fingerprintToDevbox := eraseA r.fingerprintToDevbox i.Fingerprint,
          devboxToInfo := eraseA r.devboxToInfo
            (devboxKey secret.Namespace
              (getDevboxNameFromOwnerReferences secret.OwnerReferences)) } := by
  simp [Registry.DeleteSecret, hdn, hlk, hha]

theorem updatePod_skip_label (r : Registry) (pod : Pod)
    (h : labelValue pod.Labels DevboxPartOfLabel ≠ DevboxPartOfValue) :
    r.UpdatePod pod = (r, none) := by
  simp [Registry.UpdatePod, h]

theorem updatePod_no_owner (r : Registry) (pod : Pod)
    (hlab : labelValue pod.Labels DevboxPartOfLabel = DevboxPartOfValue)
    (hdn : getDevboxNameFromOwnerReferences pod.OwnerReferences = "") :
    (r.UpdatePod pod).1 = r := by
  have hlab2 : ¬ labelValue pod.Labels DevboxPartOfLabel ≠ DevboxPartOfValue := by
    simp [hlab]
  simp [Registry.UpdatePod, hlab2, hdn]

theorem updatePod_no_ip (r : Registry) (pod : Pod)
    (hlab : labelValue pod.Labels DevboxPartOfLabel = DevboxPartOfValue)
    (hdn : getDevboxNameFromOwnerReferences pod.OwnerReferences ≠ "")
    (hip : pod.Status.PodIP = "") :
    (r.UpdatePod pod).1 = r := by
  have hlab2 : ¬ labelValue pod.Labels DevboxPartOfLabel ≠ DevboxPartOfValue := by
    simp [hlab]
  simp [Registry.UpdatePod, hlab2, hdn, hip]

theorem updatePod_existing (r : Registry) (pod : Pod) (addr : Nat)
    (hlab : labelValue pod.Labels DevboxPartOfLabel = DevboxPartOfValue)
    (hdn : getDevboxNameFromOwnerReferences pod.OwnerReferences ≠ "")
    (hip : pod.Status.PodIP ≠ "")
    (hlk : lookupA r.devboxToInfo
      (devboxKey pod.Namespace
        (getDevboxNameFromOwnerReferences pod.OwnerReferences)) = some addr) :
    (r.UpdatePod pod).1 = { r with heap := setPodIP r.heap addr pod.Status.PodIP } := by
  have hlab2 : ¬ labelValue pod.Labels DevboxPartOfLabel ≠ DevboxPartOfValue := by
    simp [hlab]
  simp [Registry.UpdatePod, hlab2, hdn, hip, hlk]

/-- The shell record allocated on the pod path: no key material. -/
def freshPodInfo (pod : Pod) : DevboxInfo :=
  { Namespace := pod.Namespace,
    DevboxName := getDevboxNameFromOwnerReferences pod.OwnerReferences,
    PodIP := pod.Status.PodIP, PublicKey := none,
    PrivateKey := none, Fingerprint := "" }

theorem updatePod_fresh (r : Registry) (pod : Pod)
    (hlab : labelValue pod.Labels DevboxPartOfLabel = DevboxPartOfValue)
    (hdn : getDevboxNameFromOwnerReferences pod.OwnerReferences ≠ "")
    (hip : pod.Status.PodIP ≠ "")
    (hlk : lookupA r.devboxToInfo
      (devboxKey pod.Namespace
        (getDevboxNameFromOwnerReferences pod.OwnerReferences)) = none) :
    (r.UpdatePod pod).1 =
      { r with
          heap := insertA r.heap r.nextAddr (freshPodInfo pod),
          nextAddr := r.nextAddr + 1,
          devboxToInfo := insertA r.devboxToInfo
            (devboxKey pod.Namespace
              (getDevboxNameFromOwnerReferences pod.OwnerReferences)) r.nextAddr } := by
  have hlab2 : ¬ labelValue pod.Labels DevboxPartOfLabel ≠ DevboxPartOfValue := by
    simp [hlab]
  simp [Registry.UpdatePod, hlab2, hdn, hip, hlk, freshPodInfo]

theorem deletePod_no_owner (r : Registry) (pod : Pod)
    (hdn : getDevboxNameFromOwnerReferences pod.OwnerReferences = "") :
    r.DeletePod pod = r := by
  simp [Registry.DeletePod, hdn]

theorem deletePod_not_found (r : Registry) (pod : Pod)
    (hdn : getDevboxNameFromOwnerReferences pod.OwnerReferences ≠ "")
    (hlk : lookupA r.devboxToInfo
      (devboxKey pod.Namespace
        (getDevboxNameFromOwnerReferences pod.OwnerReferences)) = none) :
    r.DeletePod pod = r := by
  simp [Registry.DeletePod, hdn, hlk]

theorem deletePod_found (r : Registry) (pod : Pod) (addr : Nat)
    (hdn : getDevboxNameFromOwnerReferences pod.OwnerReferences ≠ "")
    (hlk : lookupA r.devboxToInfo
      (devboxKey pod.Namespace
        (getDevboxNameFromOwnerReferences pod.OwnerReferences)) = some addr) :
    r.DeletePod pod = { r with heap := setPodIP r.heap addr "" } := by
  simp [Registry.DeletePod, hdn, hlk]

/-! ### Event traces and registry invariants -/

theorem fingerprintSHA256_ne_empty (L : SSHLib) (pk : PubKey) :
    FingerprintSHA256 L pk ≠ "" := by
  unfold FingerprintSHA256
  intro h
  have h2 := congrArg String.length h
  rw [String.length_append] at h2
  have h7 : "SHA256:".length = 7 := rfl
  have h0 : ("" : String).length = 0 := rfl
  rw [h7, h0] at h2
  omega

/-- The credential and pod events delivered by the external watcher. -/
inductive RegEvent where
  | secretAdd (s : Secret)
  | secretDel (s : Secret)
  | podUpd (p : Pod)
  | podDel (p : Pod)
deriving DecidableEq

def applyEvent (L : SSHLib) (r : Registry) : RegEvent → Registry
  | .secretAdd s => (r.AddSecret L s).1
  | .secretDel s => r.DeleteSecret s
  | .podUpd p => (r.UpdatePod p).1
  | .podDel p => r.DeletePod p

def runEvents (L : SSHLib) (evs : List RegEvent) : Registry :=
  evs.foldl (applyEvent L) Registry.New

/-- The event is a credential event that `AddSecret` accepts and that targets
the devbox stored under `key`. -/
def credAssignsKey (L : SSHLib) (key : String) : RegEvent → Prop
  | .secretAdd s =>
      labelValue s.Labels DevboxPartOfLabel = DevboxPartOfValue ∧
      ((lookupA s.Data DevboxPublicKeyField).bind L.parseAuthorizedKey).isSome = true ∧
      getDevboxNameFromOwnerReferences s.OwnerReferences ≠ "" ∧
      devboxKey s.Namespace (getDevboxNameFromOwnerReferences s.OwnerReferences) = key
  | .secretDel _ => False
  | .podUpd _ => False
  | .podDel _ => False

instance (L : SSHLib) (key : String) : DecidablePred (credAssignsKey L key) := fun e => by
  cases e <;> simp only [credAssignsKey] <;> infer_instance

/-- Structural invariant of every reachable registry state: index pointers
are below the allocator, the composite-name index is injective on addresses,
and every record the fingerprint index points to has a non-empty
fingerprint. -/
structure RInv (r : Registry) : Prop where
  dFresh : ∀ p ∈ r.devboxToInfo, p.2 < r.nextAddr
  fpFresh : ∀ p ∈ r.fingerprintToDevbox, p.2 < r.nextAddr
  inj : ∀ p ∈ r.devboxToInfo, ∀ q ∈ r.devboxToInfo, p.2 = q.2 → p.1 = q.1
  fpTarget : ∀ p ∈ r.fingerprintToDevbox, ∀ i, lookupA r.heap p.2 = some i →
    i.Fingerprint ≠ ""

theorem RInv_new : RInv Registry.New := by
  refine ⟨?_, ?_, ?_, ?_⟩ <;> intro p hp <;> simp [Registry.New] at hp

theorem RInv_addSecret (L : SSHLib) (r : Registry) (secret : Secret) (h : RInv r) :
    RInv (r.AddSecret L secret).1 := by
  by_cases hlab : labelValue secret.Labels DevboxPartOfLabel = DevboxPartOfValue
  case neg => rw [addSecret_skip_label L r secret hlab]; exact h
  cases hd : lookupA secret.Data DevboxPublicKeyField with
  | none => rw [addSecret_missing_key L r secret hlab hd]; exact h
  | some d =>
  cases hp : L.parseAuthorizedKey d with
  | none => rw [addSecret_parse_fail L r secret d hlab hd hp]; exact h
  | some pk =>
  by_cases hdn : getDevboxNameFromOwnerReferences secret.OwnerReferences = ""
  · rw [addSecret_no_owner L r secret d pk hlab hd hp hdn]; exact h
  · cases hlk : lookupA r.devboxToInfo
        (devboxKey secret.Namespace
          (getDevboxNameFromOwnerReferences secret.OwnerReferences)) with
    | some addr =>
        rw [addSecret_existing L r secret d pk addr hlab hd hp hdn hlk]
        have haddr : addr < r.nextAddr := h.dFresh _ (lookupA_mem _ _ _ hlk)
        refine ⟨h.dFresh, ?_, h.inj, ?_⟩
        · intro p hp2
          rcases mem_insertA _ _ _ _ hp2 with hmem | heq
          · exact h.fpFresh p hmem
          · subst heq; exact haddr
        · intro p hp2 i hhi
          rcases mem_insertA _ _ _ _ hp2 with hmem | heq
          · cases hha : lookupA r.heap addr with
            | none =>
                rw [setCredFields_none _ _ _ _ _ hha] at hhi
                exact h.fpTarget p hmem i hhi
            | some i0 =>
                rw [lookupA_setCredFields_some _ _ _ _ _ _ _ hha] at hhi
                by_cases hpa : addr = p.2
                · rw [if_pos hpa] at hhi
                  injection hhi with hie
                  rw [← hie]
                  exact fingerprintSHA256_ne_empty L pk
                · rw [if_neg hpa] at hhi
                  exact h.fpTarget p hmem i hhi
          · subst heq
            cases hha : lookupA r.heap addr with
            | none =>
                rw [setCredFields_none _ _ _ _ _ hha] at hhi
                rw [hha] at hhi
                exact absurd hhi (by simp)
            | some i0 =>
                rw [lookupA_setCredFields_some _ _ _ _ _ _ _ hha, if_pos rfl] at hhi
                injection hhi with hie
                rw [← hie]
                exact fingerprintSHA256_ne_empty L pk
    | none =>
        rw [addSecret_fresh L r secret d pk hlab hd hp hdn hlk]
        refine ⟨?_, ?_, ?_, ?_⟩
        · intro p hp2
          rcases mem_insertA _ _ _ _ hp2 with hmem | heq
          · exact Nat.lt_succ_of_lt (h.dFresh p hmem)
          · subst heq; exact Nat.lt_succ_self _
        · intro p hp2
          rcases mem_insertA _ _ _ _ hp2 with hmem | heq
          · exact Nat.lt_succ_of_lt (h.fpFresh p hmem)
          · subst heq; exact Nat.lt_succ_self _
        · intro p hp2 q hq2 hpq
          rcases mem_insertA _ _ _ _ hp2 with hmemp | heqp <;>
            rcases mem_insertA _ _ _ _ hq2 with hmemq | heqq
          · exact h.inj p hmemp q hmemq hpq
          · exfalso
            have hlt := h.dFresh p hmemp
            rw [heqq] at hpq
            rw [hpq] at hlt
            exact Nat.lt_irrefl _ hlt
          · exfalso
            have hlt := h.dFresh q hmemq
            rw [heqp] at hpq
            rw [← hpq] at hlt
            exact Nat.lt_irrefl _ hlt
          · rw [heqp, heqq]
        · intro p hp2 i hhi
          rcases mem_insertA _ _ _ _ hp2 with hmem | heq
          · have hlt := h.fpFresh p hmem
            have hne : r.nextAddr ≠ p.2 := fun hc => by
              rw [← hc] at hlt; exact Nat.lt_irrefl _ hlt
            rw [lookupA_insertA_ne _ _ _ _ hne] at hhi
            exact h.fpTarget p hmem i hhi
          · subst heq
            rw [lookupA_insertA_self] at hhi
            injection hhi with hie
            rw [← hie]
            exact fingerprintSHA256_ne_empty L pk

theorem RInv_deleteSecret (r : Registry) (secret : Secret) (h : RInv r) :
    RInv (r.DeleteSecret secret) := by
  by_cases hdn : getDevboxNameFromOwnerReferences secret.OwnerReferences = ""
  · rw [deleteSecret_no_owner r secret hdn]; exact h
  · cases hlk : lookupA r.devboxToInfo
        (devboxKey secret.Namespace
          (getDevboxNameFromOwnerReferences secret.OwnerReferences)) with
    | none => rw [deleteSecret_not_found r secret hdn hlk]; exact h
    | some addr =>
        cases hha : lookupA r.heap addr with
        | none => rw [deleteSecret_dangling r secret addr hdn hlk hha]; exact h
        | some i0 =>
            rw [deleteSecret_found r secret addr i0 hdn hlk hha]
            exact ⟨fun p hp => h.dFresh p (mem_eraseA _ _ _ hp),
              fun p hp => h.fpFresh p (mem_eraseA _ _ _ hp),
              fun p hp q hq hpq =>
                h.inj p (mem_eraseA _ _ _ hp) q (mem_eraseA _ _ _ hq) hpq,
              fun p hp i hhi => h.fpTarget p (mem_eraseA _ _ _ hp) i hhi⟩

theorem RInv_updatePod (r : Registry) (pod : Pod) (h : RInv r) :
    RInv (r.UpdatePod pod).1 := by
  by_cases hlab : labelValue pod.Labels DevboxPartOfLabel = DevboxPartOfValue
  case neg => rw [updatePod_skip_label r pod hlab]; exact h
  by_cases hdn : getDevboxNameFromOwnerReferences pod.OwnerReferences = ""
  · rw [updatePod_no_owner r pod hlab hdn]; exact h
  · by_cases hip : pod.Status.PodIP = ""
    · rw [updatePod_no_ip r pod hlab hdn hip]; exact h
    · cases hlk : lookupA r.devboxToInfo
          (devboxKey pod.Namespace
            (getDevboxNameFromOwnerReferences pod.OwnerReferences)) with
      | some addr =>
          rw [updatePod_existing r pod addr hlab hdn hip hlk]
          refine ⟨h.dFresh, h.fpFresh, h.inj, ?_⟩
          intro p hp2 i hhi
          cases hha : lookupA r.heap addr with
          | none =>
              rw [setPodIP_none _ _ _ hha] at hhi
              exact h.fpTarget p hp2 i hhi
          | some i0 =>
              rw [lookupA_setPodIP_some _ _ _ _ _ hha] at hhi
              by_cases hpa : addr = p.2
              · rw [if_pos hpa] at hhi
                injection hhi with hie
                rw [← hie]
                show i0.Fingerprint ≠ ""
                rw [hpa] at hha
                exact h.fpTarget p hp2 i0 hha
              · rw [if_neg hpa] at hhi
                exact h.fpTarget p hp2 i hhi
      | none =>
          rw [updatePod_fresh r pod hlab hdn hip hlk]
          refine ⟨?_, ?_, ?_, ?_⟩
          · intro p hp2
            rcases mem_insertA _ _ _ _ hp2 with hmem | heq
            · exact Nat.lt_succ_of_lt (h.dFresh p hmem)
            · subst heq; exact Nat.lt_succ_self _
          · intro p hp2
            exact Nat.lt_succ_of_lt (h.fpFresh p hp2)
          · intro p hp2 q hq2 hpq
            rcases mem_insertA _ _ _ _ hp2 with hmemp | heqp <;>
              rcases mem_insertA _ _ _ _ hq2 with hmemq | heqq
            · exact h.inj p hmemp q hmemq hpq
            · exfalso
              have hlt := h.dFresh p hmemp
              rw [heqq] at hpq
              rw [hpq] at hlt
              exact Nat.lt_irrefl _ hlt
            · exfalso
              have hlt := h.dFresh q hmemq
              rw [heqp] at hpq
              rw [← hpq] at hlt
              exact Nat.lt_irrefl _ hlt
            · rw [heqp, heqq]
          · intro p hp2 i hhi
            have hlt := h.fpFresh p hp2
            have hne : r.nextAddr ≠ p.2 := fun hc => by
              rw [← hc] at hlt; exact Nat.lt_irrefl _ hlt
            rw [lookupA_insertA_ne _ _ _ _ hne] at hhi
            exact h.fpTarget p hp2 i hhi

theorem RInv_deletePod (r : Registry) (pod : Pod) (h : RInv r) :
    RInv (r.DeletePod pod) := by
  by_cases hdn : getDevboxNameFromOwnerReferences pod.OwnerReferences = ""
  · rw [deletePod_no_owner r pod hdn]; exact h
  · cases hlk : lookupA r.devboxToInfo
        (devboxKey pod.Namespace
          (getDevboxNameFromOwnerReferences pod.OwnerReferences)) with
    | none => rw [deletePod_not_found r pod hdn hlk]; exact h
    | some addr =>
        rw [deletePod_found r pod addr hdn hlk]
        refine ⟨h.dFresh, h.fpFresh, h.inj, ?_⟩
        intro p hp2 i hhi
        cases hha : lookupA r.heap addr with
        | none =>
            rw [setPodIP_none _ _ _ hha] at hhi
            exact h.fpTarget p hp2 i hhi
        | some i0 =>
            rw [lookupA_setPodIP_some _ _ _ _ _ hha] at hhi
            by_cases hpa : addr = p.2
            · rw [if_pos hpa] at hhi
              injection hhi with hie
              rw [← hie]
              show i0.Fingerprint ≠ ""
              rw [hpa] at hha
              exact h.fpTarget p hp2 i0 hha
            · rw [if_neg hpa] at hhi
              exact h.fpTarget p hp2 i hhi

theorem RInv_apply (L : SSHLib) (r : Registry) (e : RegEvent) (h : RInv r) :
    RInv (applyEvent L r e) := by
  cases e with
  | secretAdd s => exact RInv_addSecret L r s h
  | secretDel s => exact RInv_deleteSecret r s h
  | podUpd p => exact RInv_updatePod r p h
  | podDel p => exact RInv_deletePod r p h

theorem RInv_foldl (L : SSHLib) : ∀ (evs : List RegEvent) (r : Registry), RInv r →
    RInv (evs.foldl (applyEvent L) r) := by
  intro evs
  induction evs with
  | nil => intro r h; exact h
  | cons e rest ih => intro r h; exact ih _ (RInv_apply L r e h)

theorem RInv_run (L : SSHLib) (evs : List RegEvent) : RInv (runEvents L evs) :=
  RInv_foldl L evs Registry.New RInv_new

/-- The record stored under `key` (if any) is a shell: no key material. -/
def KShell (key : String) (r : Registry) : Prop :=
  ∀ a, (key, a) ∈ r.devboxToInfo → ∀ i, lookupA r.heap a = some i →
    i.PublicKey = none ∧ i.PrivateKey = none ∧ i.Fingerprint = ""

theorem KShell_new (key : String) : KShell key Registry.New := by
  intro a ha
  simp [Registry.New] at ha

theorem KShell_addSecret (L : SSHLib) (key : String) (r : Registry) (secret : Secret)
    (h : RInv r) (hk : KShell key r)
    (hnc : ¬ credAssignsKey L key (RegEvent.secretAdd secret)) :
    KShell key (r.AddSecret L secret).1 := by
  by_cases hlab : labelValue secret.Labels DevboxPartOfLabel = DevboxPartOfValue
  case neg => rw [addSecret_skip_label L r secret hlab]; exact hk
  cases hd : lookupA secret.Data DevboxPublicKeyField with
  | none => rw [addSecret_missing_key L r secret hlab hd]; exact hk
  | some d =>
  cases hp : L.parseAuthorizedKey d with
  | none => rw [addSecret_parse_fail L r secret d hlab hd hp]; exact hk
  | some pk =>
  by_cases hdn : getDevboxNameFromOwnerReferences secret.OwnerReferences = ""
  · rw [addSecret_no_owner L r secret d pk hlab hd hp hdn]; exact hk
  · have hkey : devboxKey secret.Namespace
        (getDevboxNameFromOwnerReferences secret.OwnerReferences) ≠ key := by
      intro hkeq
      exact hnc ⟨hlab, by simp [hd, hp], hdn, hkeq⟩
    cases hlk : lookupA r.devboxToInfo
        (devboxKey secret.Namespace
          (getDevboxNameFromOwnerReferences secret.OwnerReferences)) with
    | some addr =>
        rw [addSecret_existing L r secret d pk addr hlab hd hp hdn hlk]
        intro a hmem i hhi
        have hane : addr ≠ a := by
          intro hc
          subst hc
          exact hkey (h.inj _ (lookupA_mem _ _ _ hlk) _ hmem rfl)
        cases hha : lookupA r.heap addr with
        | none =>
            rw [setCredFields_none _ _ _ _ _ hha] at hhi
            exact hk a hmem i hhi
        | some i0 =>
            rw [lookupA_setCredFields_some _ _ _ _ _ _ _ hha, if_neg hane] at hhi
            exact hk a hmem i hhi
    | none =>
        rw [addSecret_fresh L r secret d pk hlab hd hp hdn hlk]
        intro a hmem i hhi
        rcases mem_insertA _ _ _ _ hmem with hmem2 | heq
        · have hlt := h.dFresh _ hmem2
          have hne : r.nextAddr ≠ a := fun hc => by
            rw [← hc] at hlt; exact Nat.lt_irrefl _ hlt
          rw [lookupA_insertA_ne _ _ _ _ hne] at hhi
          exact hk a hmem2 i hhi
        · exfalso
          exact hkey ((congrArg Prod.fst heq).symm)

theorem KShell_deleteSecret (key : String) (r : Registry) (secret : Secret)
    (hk : KShell key r) : KShell key (r.DeleteSecret secret) := by
  by_cases hdn : getDevboxNameFromOwnerReferences secret.OwnerReferences = ""
  · rw [deleteSecret_no_owner r secret hdn]; exact hk
  · cases hlk : lookupA r.devboxToInfo
        (devboxKey secret.Namespace
          (getDevboxNameFromOwnerReferences secret.OwnerReferences)) with
    | none => rw [deleteSecret_not_found r secret hdn hlk]; exact hk
    | some addr =>
        cases hha : lookupA r.heap addr with
        | none => rw [deleteSecret_dangling r secret addr hdn hlk hha]; exact hk
        | some i0 =>
            rw [deleteSecret_found r secret addr i0 hdn hlk hha]
            intro a hmem i hhi
            exact hk a (mem_eraseA _ _ _ hmem) i hhi

theorem KShell_updatePod (key : String) (r : Registry) (pod : Pod)
    (h : RInv r) (hk : KShell key r) : KShell key (r.UpdatePod pod).1 := by
  by_cases hlab : labelValue pod.Labels DevboxPartOfLabel = DevboxPartOfValue
  case neg => rw [updatePod_skip_label r pod hlab]; exact hk
  by_cases hdn : getDevboxNameFromOwnerReferences pod.OwnerReferences = ""
  · rw [updatePod_no_owner r pod hlab hdn]; exact hk
  · by_cases hip : pod.Status.PodIP = ""
    · rw [updatePod_no_ip r pod hlab hdn hip]; exact hk
    · cases hlk : lookupA r.devboxToInfo
          (devboxKey pod.Namespace
            (getDevboxNameFromOwnerReferences pod.OwnerReferences)) with
      | some addr =>
          rw [updatePod_existing r pod addr hlab hdn hip hlk]
          intro a hmem i hhi
          cases hha : lookupA r.heap addr with
          | none =>
              rw [setPodIP_none _ _ _ hha] at hhi
              exact hk a hmem i hhi
          | some i0 =>
              rw [lookupA_setPodIP_some _ _ _ _ _ hha] at hhi
              by_cases hpa : addr = a
              · rw [if_pos hpa] at hhi
                injection hhi with hie
                rw [hpa] at hha
                have hs := hk a hmem i0 hha
                rw [← hie]
                exact hs
              · rw [if_neg hpa] at hhi
                exact hk a hmem i hhi
      | none =>
          rw [updatePod_fresh r pod hlab hdn hip hlk]
          intro a hmem i hhi
          rcases mem_insertA _ _ _ _ hmem with hmem2 | heq
          · have hlt := h.dFresh _ hmem2
            have hne : r.nextAddr ≠ a := fun hc => by
              rw [← hc] at hlt; exact Nat.lt_irrefl _ hlt
            rw [lookupA_insertA_ne _ _ _ _ hne] at hhi
            exact hk a hmem2 i hhi
          · have ha : a = r.nextAddr := congrArg Prod.snd heq
            subst ha
            rw [lookupA_insertA_self] at hhi
            injection hhi with hie
            rw [← hie]
            exact ⟨rfl, rfl, rfl⟩

theorem KShell_deletePod (key : String) (r : Registry) (pod : Pod)
    (hk : KShell key r) : KShell key (r.DeletePod pod) := by
  by_cases hdn : getDevboxNameFromOwnerReferences pod.OwnerReferences = ""
  · rw [deletePod_no_owner r pod hdn]; exact hk
  · cases hlk : lookupA r.devboxToInfo
        (devboxKey pod.Namespace
          (getDevboxNameFromOwnerReferences pod.OwnerReferences)) with
    | none => rw [deletePod_not_found r pod hdn hlk]; exact hk
    | some addr =>
        rw [deletePod_found r pod addr hdn hlk]
        intro a hmem i hhi
        cases hha : lookupA r.heap addr with
        | none =>
            rw [setPodIP_none _ _ _ hha] at hhi
            exact hk a hmem i hhi
        | some i0 =>
            rw [lookupA_setPodIP_some _ _ _ _ _ hha] at hhi
            by_cases hpa : addr = a
            · rw [if_pos hpa] at hhi
              injection hhi with hie
              rw [hpa] at hha
              have hs := hk a hmem i0 hha
              rw [← hie]
              exact hs
            · rw [if_neg hpa] at hhi
              exact hk a hmem i hhi

theorem KShell_apply (L : SSHLib) (key : String) (r : Registry) (e : RegEvent)
    (h : RInv r) (hk : KShell key r) (hnc : ¬ credAssignsKey L key e) :
    KShell key (applyEvent L r e) := by
  cases e with
  | secretAdd s => exact KShell_addSecret L key r s h hk hnc
  | secretDel s => exact KShell_deleteSecret key r s hk
  | podUpd p => exact KShell_updatePod key r p h hk
  | podDel p => exact KShell_deletePod key r p hk

theorem KShell_foldl (L : SSHLib) (key : String) : ∀ (evs : List RegEvent) (r : Registry),
    RInv r → KShell key r → (∀ e ∈ evs, ¬ credAssignsKey L key e) →
    KShell key (evs.foldl (applyEvent L) r) := by
  intro evs
  induction evs with
  | nil => intro r _ hk _; exact hk
  | cons e rest ih =>
      intro r h hk hnc
      exact ih _ (RInv_apply L r e h)
        (KShell_apply L key r e h hk (hnc e (by simp)))
        (fun e2 he2 => hnc e2 (by simp [he2]))

theorem KShell_run (L : SSHLib) (key : String) (evs : List RegEvent)
    (hnc : ∀ e ∈ evs, ¬ credAssignsKey L key e) : KShell key (runEvents L evs) :=
  KShell_foldl L key evs Registry.New RInv_new (KShell_new key) hnc

/-! ### Test fixtures for concrete evaluations -/

/-- A concrete instantiation of the abstract ssh parsing functions, used only
to evaluate the model on concrete inputs: a public key is the length of its
encoding, its fingerprint hash is that many letters. -/
def tLib : SSHLib :=
  { parseAuthorizedKey := fun s => some s.length,
    fingerprintHash := fun n => String.mk (List.replicate n 'a'),
    parsePrivateKey := fun d => if d = "good" then some 5 else none }

def tOwner : OwnerReference := { Kind := "Devbox", Name := "db" }

def tSecret1 : Secret :=
  { Namespace := "ns", Name := "sec",
    Labels := [(DevboxPartOfLabel, DevboxPartOfValue)],
    OwnerReferences := [tOwner],
    Data := [(DevboxPublicKeyField, "x"), (DevboxPrivateKeyField, "good")] }

/-- The same devbox credential rotated to a different public key, with a
private-key field that fails to parse. -/
def tSecret2 : Secret :=
  { tSecret1 with Data := [(DevboxPublicKeyField, "xy"), (DevboxPrivateKeyField, "bad")] }

/-- The same secret with the part-of label removed. -/
def tSecret1NoLabel : Secret := { tSecret1 with Labels := [] }

def tPod : Pod :=
  { Namespace := "ns", Name := "pod",
    Labels := [(DevboxPartOfLabel, DevboxPartOfValue)],
    OwnerReferences := [tOwner],
    Status := { PodIP := "10.0.0.5" } }

def tReg1 : Registry := (Registry.New.AddSecret tLib tSecret1).1

def tReg1p : Registry := (tReg1.UpdatePod tPod).1

/-! ### Claim C1 -/

/-- Claim C1 (code bug): rotating the credential of devbox ns/db from the
key with fingerprint SHA256:a to the key with fingerprint SHA256:aa does NOT
retire the old fingerprint: `AddSecret` leaves the old fingerprint-index
entry in place, and since both indexes share the record, a lookup by the old
fingerprint returns the fully updated record (new public key `2`, new
fingerprint `SHA256:aa`). -/
theorem C1_stale_fingerprint_returns_updated_record :
    ((tReg1.AddSecret tLib tSecret2).1.GetByFingerprint "SHA256:a" =
      some { Namespace := "ns", DevboxName := "db", PodIP := "",
             PublicKey := some 2, PrivateKey := none,
             Fingerprint := "SHA256:aa" }) ∧
    (tReg1.AddSecret tLib tSecret2).2 = none := by
  constructor
  · decide
  · decide

/-! ### Claim C5 -/

/-- Claim C5: `DeletePod` never removes a credential.  Both indexes and the
allocator are unchanged, every heap record keeps its identity and key
material (only `PodIP` can change, and only to the empty string), any
fingerprint lookup that succeeded before still succeeds with the same key
material, and the record matched by the pod ends with an empty `PodIP`. -/
theorem C5_deletePod_preserves_credentials : ∀ (r : Registry) (pod : Pod),
    (r.DeletePod pod).fingerprintToDevbox = r.fingerprintToDevbox ∧
    (r.DeletePod pod).devboxToInfo = r.devboxToInfo ∧
    (r.DeletePod pod).nextAddr = r.nextAddr ∧
    (∀ a i2, lookupA (r.DeletePod pod).heap a = some i2 →
      ∃ i, lookupA r.heap a = some i ∧
        i2.Namespace = i.Namespace ∧ i2.DevboxName = i.DevboxName ∧
        i2.PublicKey = i.PublicKey ∧ i2.PrivateKey = i.PrivateKey ∧
        i2.Fingerprint = i.Fingerprint ∧ (i2.PodIP = i.PodIP ∨ i2.PodIP = "")) ∧
    (∀ fp i, r.GetByFingerprint fp = some i →
      ∃ i2, (r.DeletePod pod).GetByFingerprint fp = some i2 ∧
        i2.PublicKey = i.PublicKey ∧ i2.PrivateKey = i.PrivateKey ∧
        i2.Fingerprint = i.Fingerprint ∧ (i2.PodIP = i.PodIP ∨ i2.PodIP = "")) ∧
    (∀ addr,
      lookupA r.devboxToInfo
        (devboxKey pod.Namespace (getDevboxNameFromOwnerReferences pod.OwnerReferences)) =
          some addr →
      getDevboxNameFromOwnerReferences pod.OwnerReferences ≠ "" →
      ∀ i2, lookupA (r.DeletePod pod).heap addr = some i2 → i2.PodIP = "") := by
  intro r pod
  by_cases hdn : getDevboxNameFromOwnerReferences pod.OwnerReferences = ""
  · have h : r.DeletePod pod = r := by simp [Registry.DeletePod, hdn]
    rw [h]
    exact ⟨rfl, rfl, rfl,
      fun a i2 hl => ⟨i2, hl, rfl, rfl, rfl, rfl, rfl, Or.inl rfl⟩,
      fun fp i hl => ⟨i, hl, rfl, rfl, rfl, Or.inl rfl⟩,
      fun addr _ hne => absurd hdn hne⟩
  · cases hlk : lookupA r.devboxToInfo
        (devboxKey pod.Namespace (getDevboxNameFromOwnerReferences pod.OwnerReferences)) with
    | none =>
        have h : r.DeletePod pod = r := by simp [Registry.DeletePod, hdn, hlk]
        rw [h]
        exact ⟨rfl, rfl, rfl,
          fun a i2 hl => ⟨i2, hl, rfl, rfl, rfl, rfl, rfl, Or.inl rfl⟩,
          fun fp i hl => ⟨i, hl, rfl, rfl, rfl, Or.inl rfl⟩,
          fun addr haddr _ => absurd haddr (by simp)⟩
    | some addr0 =>
        have h : r.DeletePod pod = { r with heap := setPodIP r.heap addr0 "" } := by
          simp [Registry.DeletePod, hdn, hlk]
        rw [h]
        refine ⟨rfl, rfl, rfl, ?_, ?_, ?_⟩
        · intro a i2 hl
          cases hha : lookupA r.heap addr0 with
          | none =>
              rw [setPodIP_none _ _ _ hha] at hl
              exact ⟨i2, hl, rfl, rfl, rfl, rfl, rfl, Or.inl rfl⟩
          | some i0 =>
              rw [lookupA_setPodIP_some _ _ _ _ _ hha] at hl
              by_cases hae : addr0 = a
              · subst hae
                rw [if_pos rfl] at hl
                refine ⟨i0, hha, ?_⟩
                cases hl
                exact ⟨rfl, rfl, rfl, rfl, rfl, Or.inr rfl⟩
              · rw [if_neg hae] at hl
                exact ⟨i2, hl, rfl, rfl, rfl, rfl, rfl, Or.inl rfl⟩
        · intro fp i hl
          unfold Registry.GetByFingerprint at hl
          cases hfb : lookupA r.fingerprintToDevbox fp with
          | none => rw [hfb] at hl; exact absurd hl (by simp)
          | some b =>
              rw [hfb] at hl
              replace hl : lookupA r.heap b = some i := hl
              show ∃ i2,
                (lookupA r.fingerprintToDevbox fp).bind
                  (lookupA (setPodIP r.heap addr0 "")) = some i2 ∧ _
              rw [hfb]
              show ∃ i2, lookupA (setPodIP r.heap addr0 "") b = some i2 ∧ _
              cases hha : lookupA r.heap addr0 with
              | none =>
                  rw [setPodIP_none _ _ _ hha]
                  exact ⟨i, hl, rfl, rfl, rfl, Or.inl rfl⟩
              | some i0 =>
                  rw [lookupA_setPodIP_some _ _ _ _ _ hha]
                  by_cases hab : addr0 = b
                  · subst hab
                    rw [if_pos rfl]
                    have hii : i0 = i := by
                      rw [hha] at hl
                      exact Option.some.inj hl
                    subst hii
                    exact ⟨_, rfl, rfl, rfl, rfl, Or.inr rfl⟩
                  · rw [if_neg hab]
                    exact ⟨i, hl, rfl, rfl, rfl, Or.inl rfl⟩
        · intro addr haddr _ i2 hl
          have he : addr0 = addr := Option.some.inj haddr
          rw [← he] at hl
          cases hha : lookupA r.heap addr0 with
          | none =>
              rw [setPodIP_none _ _ _ hha] at hl
              rw [hl] at hha
              exact absurd hha (by simp)
          | some i0 =>
              rw [lookupA_setPodIP_some _ _ _ _ _ hha, if_pos rfl] at hl
              cases hl
              rfl

/-- Witness for C5 at a concrete input: after building a registry with a
credential and a pod IP, deleting the pod leaves the record reachable, with
`PodIP` cleared. -/
theorem C5_witness :
    lookupA (tReg1p.DeletePod tPod).heap 0 =
      some { Namespace := "ns", DevboxName := "db", PodIP := "",
             PublicKey := some 1, PrivateKey := some 5,
             Fingerprint := "SHA256:a" } ∧
    ({ Namespace := "ns", DevboxName := "db", PodIP := "",
       PublicKey := some 1, PrivateKey := some 5,
       Fingerprint := "SHA256:a" } : DevboxInfo).PodIP = "" := by
  refine ⟨by decide, ?_⟩
  exact (C5_deletePod_preserves_credentials tReg1p tPod).2.2.2.2.2 0 (by decide) (by decide)
    _ (by decide)

/-! ### Claim C7 -/

/-- Counterexample to claim C7 as stated: `DeleteSecret` performs no part-of
label check, so deleting a secret WITHOUT the devbox label (but with a
Devbox owner reference) still removes the record from both indexes. -/
theorem C7_counterexample : Registry.DeleteSecret tReg1 tSecret1NoLabel ≠ tReg1 := by
  decide

/-- Claim C7 (amended): the event handlers that do filter by the part-of
label are `AddSecret` and `UpdatePod`: for a resource whose label differs
from devbox they return the state unchanged with no error.  (`DeleteSecret`
and `DeletePod` perform no label check, see the counterexample.) -/
theorem C7_label_filter_amended :
    ∀ (L : SSHLib) (r : Registry) (secret : Secret) (pod : Pod),
    (labelValue secret.Labels DevboxPartOfLabel ≠ DevboxPartOfValue →
      r.AddSecret L secret = (r, none)) ∧
    (labelValue pod.Labels DevboxPartOfLabel ≠ DevboxPartOfValue →
      r.UpdatePod pod = (r, none)) := by
  intro L r secret pod
  constructor
  · intro h; simp [Registry.AddSecret, h]
  · intro h; simp [Registry.UpdatePod, h]

/-- Witness for the amended C7 at a concrete input: an unlabeled secret and
an unlabeled pod leave a populated registry untouched. -/
theorem C7_witness :
    tReg1.AddSecret tLib tSecret1NoLabel = (tReg1, none) ∧
    tReg1.UpdatePod { tPod with Labels := [] } = (tReg1, none) := by
  exact ⟨(C7_label_filter_amended tLib tReg1 tSecret1NoLabel { tPod with Labels := [] }).1
      (by decide),
    (C7_label_filter_amended tLib tReg1 tSecret1NoLabel { tPod with Labels := [] }).2
      (by decide)⟩

/-! ### Claim C9 -/

/-- Claim C9: for every credential event `AddSecret` accepts, the stored
record gets `PrivateKey` set to exactly the parse result of the event
private-key field (in particular `none` when the field is absent or fails to
parse, overwriting any earlier signer), while the call still succeeds and
updates the public key, fingerprint, and fingerprint index.  The `hwf`
hypothesis states that index pointers are valid, which holds for every
reachable registry state. -/
theorem C9_addSecret_sets_privateKey_exactly :
    ∀ (L : SSHLib) (r : Registry) (secret : Secret),
    (∀ k a, lookupA r.devboxToInfo k = some a → (lookupA r.heap a).isSome) →
    labelValue secret.Labels DevboxPartOfLabel = DevboxPartOfValue →
    ∀ pkData pk,
    lookupA secret.Data DevboxPublicKeyField = some pkData →
    L.parseAuthorizedKey pkData = some pk →
    getDevboxNameFromOwnerReferences secret.OwnerReferences ≠ "" →
    (r.AddSecret L secret).2 = none ∧
    ∃ addr i,
      lookupA (r.AddSecret L secret).1.devboxToInfo
        (devboxKey secret.Namespace
          (getDevboxNameFromOwnerReferences secret.OwnerReferences)) = some addr ∧
      lookupA (r.AddSecret L secret).1.heap addr = some i ∧
      i.PrivateKey = (parsedPrivateKey L secret) ∧
      i.PublicKey = some pk ∧
      i.Fingerprint = FingerprintSHA256 L pk ∧
      lookupA (r.AddSecret L secret).1.fingerprintToDevbox
        (FingerprintSHA256 L pk) = some addr := by
  intro L r secret hwf hlabel pkData pk hdata hparse hdn
  have hlabel2 : ¬ labelValue secret.Labels DevboxPartOfLabel ≠ DevboxPartOfValue := by
    simp [hlabel]
  cases hlk : lookupA r.devboxToInfo
      (devboxKey secret.Namespace
        (getDevboxNameFromOwnerReferences secret.OwnerReferences)) with
  | some addr0 =>
      have hres : r.AddSecret L secret =
          ({ r with
              heap := setCredFields r.heap addr0 pk
                (parsedPrivateKey L secret)
                (FingerprintSHA256 L pk),
              fingerprintToDevbox :=
                insertA r.fingerprintToDevbox (FingerprintSHA256 L pk) addr0 }, none) := by
        simp [Registry.AddSecret, hlabel2, hdata, hparse, hdn, hlk]
      rw [hres]
      refine ⟨rfl, addr0, ?_⟩
      have hh := hwf _ _ hlk
      cases hha : lookupA r.heap addr0 with
      | none => rw [hha] at hh; simp at hh
      | some i0 =>
          refine ⟨{ i0 with
                      PublicKey := some pk,
                      PrivateKey := (parsedPrivateKey L secret),
                      Fingerprint := FingerprintSHA256 L pk }, hlk, ?_, rfl, rfl, rfl,
            lookupA_insertA_self _ _ _⟩
          show lookupA (setCredFields r.heap addr0 _ _ _) addr0 = _
          rw [lookupA_setCredFields_some _ _ _ _ _ _ _ hha, if_pos rfl]
  | none =>
      have hres : r.AddSecret L secret =
          ({ heap := insertA r.heap r.nextAddr
                { Namespace := secret.Namespace,
                  DevboxName := getDevboxNameFromOwnerReferences secret.OwnerReferences,
                  PodIP := "", PublicKey := some pk,
                  PrivateKey := (parsedPrivateKey L secret),
                  Fingerprint := FingerprintSHA256 L pk },
              nextAddr := r.nextAddr + 1,
              fingerprintToDevbox :=
                insertA r.fingerprintToDevbox (FingerprintSHA256 L pk) r.nextAddr,
              devboxToInfo := insertA r.devboxToInfo
                (devboxKey secret.Namespace
                  (getDevboxNameFromOwnerReferences secret.OwnerReferences)) r.nextAddr },
            none) := by
        simp [Registry.AddSecret, hlabel2, hdata, hparse, hdn, hlk]
      rw [hres]
      exact ⟨rfl, r.nextAddr, _,
        lookupA_insertA_self _ _ _, lookupA_insertA_self _ _ _,
        rfl, rfl, rfl, lookupA_insertA_self _ _ _⟩

/-- Pointer validity for the concrete registry `tReg1`. -/
theorem tReg1_wf : ∀ k a, lookupA tReg1.devboxToInfo k = some a →
    (lookupA tReg1.heap a).isSome := by
  intro k a h
  rw [show tReg1.devboxToInfo = [("ns/db", 0)] from by decide] at h
  simp only [lookupA] at h
  split at h
  · injection h with h2
    subst h2
    decide
  · exact absurd h (by simp)

/-- Witness for C9 at a concrete input: the devbox already has a stored
signer (`some 5`); a rotation event whose private-key field fails to parse
succeeds and overwrites the signer with `none`. -/
theorem C9_witness :
    (tReg1.AddSecret tLib tSecret2).2 = none ∧
    ∃ addr i,
      lookupA (tReg1.AddSecret tLib tSecret2).1.devboxToInfo (devboxKey "ns" "db") =
        some addr ∧
      lookupA (tReg1.AddSecret tLib tSecret2).1.heap addr = some i ∧
      i.PrivateKey = none ∧
      i.PublicKey = some 2 := by
  obtain ⟨h1, addr, i, h2, h3, h4, h5, -, -⟩ :=
    C9_addSecret_sets_privateKey_exactly tLib tReg1 tSecret2 tReg1_wf (by decide)
      "xy" 2 (by decide) (by decide) (by decide)
  refine ⟨h1, addr, i, ?_, h3, ?_, h5⟩
  · exact h2
  · rw [h4]; decide

/-! ### Claim C10 -/

/-- Claim C10: fingerprint-index entries are created only by `AddSecret`,
always under a non-empty key equal to the `Fingerprint` field assigned to
the target record; `DeleteSecret` only removes entries, and the pod handlers
leave the fingerprint index untouched; a record created solely by pod events
(no credential event for its key) has no key material and an empty
fingerprint, is reachable through `GetDevboxInfo`, and is never the record
returned by `GetByFingerprint`. -/
theorem C10_fingerprint_index_discipline :
    ∀ (L : SSHLib) (r : Registry) (secret : Secret) (pod : Pod),
    ((r.AddSecret L secret).1.fingerprintToDevbox = r.fingerprintToDevbox ∨
      ∃ pk addr,
        (r.AddSecret L secret).1.fingerprintToDevbox =
          insertA r.fingerprintToDevbox (FingerprintSHA256 L pk) addr ∧
        FingerprintSHA256 L pk ≠ "" ∧
        ∀ i, lookupA (r.AddSecret L secret).1.heap addr = some i →
          i.Fingerprint = FingerprintSHA256 L pk) ∧
    (∀ p, p ∈ (r.DeleteSecret secret).fingerprintToDevbox →
      p ∈ r.fingerprintToDevbox) ∧
    ((r.UpdatePod pod).1.fingerprintToDevbox = r.fingerprintToDevbox) ∧
    ((r.DeletePod pod).fingerprintToDevbox = r.fingerprintToDevbox) ∧
    (∀ (evs : List RegEvent) (ns db : String),
      (∀ e ∈ evs, ¬ credAssignsKey L (devboxKey ns db) e) →
      ∀ i, (runEvents L evs).GetDevboxInfo ns db = some i →
        i.PublicKey = none ∧ i.PrivateKey = none ∧ i.Fingerprint = "" ∧
        ∀ fp i2, (runEvents L evs).GetByFingerprint fp = some i2 → i2 ≠ i) := by
  intro L r secret pod
  refine ⟨?_, ?_, ?_, ?_, ?_⟩
  · -- (1) AddSecret
    by_cases hlab : labelValue secret.Labels DevboxPartOfLabel = DevboxPartOfValue
    case neg => rw [addSecret_skip_label L r secret hlab]; exact Or.inl rfl
    cases hd : lookupA secret.Data DevboxPublicKeyField with
    | none => rw [addSecret_missing_key L r secret hlab hd]; exact Or.inl rfl
    | some d =>
    cases hp : L.parseAuthorizedKey d with
    | none => rw [addSecret_parse_fail L r secret d hlab hd hp]; exact Or.inl rfl
    | some pk =>
    by_cases hdn : getDevboxNameFromOwnerReferences secret.OwnerReferences = ""
    · rw [addSecret_no_owner L r secret d pk hlab hd hp hdn]; exact Or.inl rfl
    · cases hlk : lookupA r.devboxToInfo
          (devboxKey secret.Namespace
            (getDevboxNameFromOwnerReferences secret.OwnerReferences)) with
      | some addr =>
          rw [addSecret_existing L r secret d pk addr hlab hd hp hdn hlk]
          refine Or.inr ⟨pk, addr, rfl, fingerprintSHA256_ne_empty L pk, ?_⟩
          intro i hhi
          replace hhi : lookupA (setCredFields r.heap addr pk (parsedPrivateKey L secret)
              (FingerprintSHA256 L pk)) addr = some i := hhi
          cases hha : lookupA r.heap addr with
          | none =>
              rw [setCredFields_none _ _ _ _ _ hha, hha] at hhi
              exact absurd hhi (by simp)
          | some i0 =>
              rw [lookupA_setCredFields_some _ _ _ _ _ _ _ hha, if_pos rfl] at hhi
              injection hhi with hie
              rw [← hie]
      | none =>
          rw [addSecret_fresh L r secret d pk hlab hd hp hdn hlk]
          refine Or.inr ⟨pk, r.nextAddr, rfl, fingerprintSHA256_ne_empty L pk, ?_⟩
          intro i hhi
          replace hhi : lookupA (insertA r.heap r.nextAddr (freshCredInfo L secret pk))
              r.nextAddr = some i := hhi
          rw [lookupA_insertA_self] at hhi
          injection hhi with hie
          rw [← hie]
          rfl
  · -- (2) DeleteSecret only removes
    by_cases hdn : getDevboxNameFromOwnerReferences secret.OwnerReferences = ""
    · rw [deleteSecret_no_owner r secret hdn]; exact fun p hp => hp
    · cases hlk : lookupA r.devboxToInfo
          (devboxKey secret.Namespace
            (getDevboxNameFromOwnerReferences secret.OwnerReferences)) with
      | none => rw [deleteSecret_not_found r secret hdn hlk]; exact fun p hp => hp
      | some addr =>
          cases hha : lookupA r.heap addr with
          | none =>
              rw [deleteSecret_dangling r secret addr hdn hlk hha]
              exact fun p hp => hp
          | some i0 =>
              rw [deleteSecret_found r secret addr i0 hdn hlk hha]
              exact fun p hp => mem_eraseA _ _ _ hp
  · -- (2) UpdatePod leaves the fingerprint index unchanged
    by_cases hlab : labelValue pod.Labels DevboxPartOfLabel = DevboxPartOfValue
    case neg => rw [updatePod_skip_label r pod hlab]
    by_cases hdn : getDevboxNameFromOwnerReferences pod.OwnerReferences = ""
    · rw [updatePod_no_owner r pod hlab hdn]
    · by_cases hip : pod.Status.PodIP = ""
      · rw [updatePod_no_ip r pod hlab hdn hip]
      · cases hlk : lookupA r.devboxToInfo
            (devboxKey pod.Namespace
              (getDevboxNameFromOwnerReferences pod.OwnerReferences)) with
        | some addr => rw [updatePod_existing r pod addr hlab hdn hip hlk]
        | none => rw [updatePod_fresh r pod hlab hdn hip hlk]
  · -- (2) DeletePod leaves the fingerprint index unchanged
    by_cases hdn : getDevboxNameFromOwnerReferences pod.OwnerReferences = ""
    · rw [deletePod_no_owner r pod hdn]
    · cases hlk : lookupA r.devboxToInfo
          (devboxKey pod.Namespace
            (getDevboxNameFromOwnerReferences pod.OwnerReferences)) with
      | none => rw [deletePod_not_found r pod hdn hlk]
      | some addr => rw [deletePod_found r pod addr hdn hlk]
  · -- (3) shell records
    intro evs ns db hnc i hinfo
    have hks : KShell (devboxKey ns db) (runEvents L evs) := KShell_run L _ evs hnc
    unfold Registry.GetDevboxInfo at hinfo
    cases haa : lookupA (runEvents L evs).devboxToInfo (devboxKey ns db) with
    | none => rw [haa] at hinfo; exact absurd hinfo (by simp)
    | some a =>
        rw [haa] at hinfo
        replace hinfo : lookupA (runEvents L evs).heap a = some i := hinfo
        have hshell := hks a (lookupA_mem _ _ _ haa) i hinfo
        refine ⟨hshell.1, hshell.2.1, hshell.2.2, ?_⟩
        intro fp i2 hget
        unfold Registry.GetByFingerprint at hget
        cases hb : lookupA (runEvents L evs).fingerprintToDevbox fp with
        | none => rw [hb] at hget; exact absurd hget (by simp)
        | some b =>
            rw [hb] at hget
            replace hget : lookupA (runEvents L evs).heap b = some i2 := hget
            have hne := (RInv_run L evs).fpTarget (fp, b) (lookupA_mem _ _ _ hb) i2 hget
            intro hcon
            rw [hcon, hshell.2.2] at hne
            exact hne rfl

/-- Witness for C10 at a concrete input: a single pod event creates a shell
record visible by name but invisible to fingerprint lookups. -/
theorem C10_witness :
    (runEvents tLib [RegEvent.podUpd tPod]).GetDevboxInfo "ns" "db" =
      some (freshPodInfo tPod) ∧
    (freshPodInfo tPod).PublicKey = none ∧
    (freshPodInfo tPod).PrivateKey = none ∧
    (freshPodInfo tPod).Fingerprint = "" ∧
    ∀ fp i2, (runEvents tLib [RegEvent.podUpd tPod]).GetByFingerprint fp = some i2 →
      i2 ≠ freshPodInfo tPod := by
  have h := (C10_fingerprint_index_discipline tLib Registry.New tSecret1 tPod).2.2.2.2
    [RegEvent.podUpd tPod] "ns" "db" (by decide) (freshPodInfo tPod) (by decide)
  exact ⟨by decide, h.1, h.2.1, h.2.2.1, h.2.2.2⟩

/-! ## The public-key auth callback (src/gateway/utils.go, publicKeyCallback)

The username parser is consumed through `g.parser.Parse` but its code is not
under src; it is modelled from the spec below.
-/

/-- Splits a list at the first occurrence of `c`: the parts strictly before
and strictly after it. -/
def splitFirst (c : Char) : List Char → Option (List Char × List Char)
  | [] => none
  | x :: xs =>
      if x = c then some ([], xs)
      else
        match splitFirst c xs with
        | some (l, r2) => some (x :: l, r2)
        | none => none

/-- Splits a list at the last occurrence of `c`. -/
def splitLast (c : Char) (l : List Char) : Option (List Char × List Char) :=
  match splitFirst c l.reverse with
  | some (rsuf, rpre) => some (rpre.reverse, rsuf.reverse)
  | none => none

/-- Modelled from the spec: the username parser of component 4.4 is not in
src (only its caller is).  Format `user.ns-suffix-devbox`: split on the
FIRST dot, split the right half on the LAST dash, map the suffix to the full
namespace through the installation-specific prefix string; malformed input
fails with an error describing which separator was missing. -/
def parseUsername (nsPre : String) (s : String) :
    Except String (String × String × String) :=
  match splitFirst '.' s.toList with
  | none => Except.error "invalid username format: missing . separator"
  | some (u, rest) =>
      match splitLast '-' rest with
      | none => Except.error "invalid username format: missing - separator"
      | some (nsSuf, db) =>
          Except.ok (String.mk u, nsPre ++ String.mk nsSuf, String.mk db)

/-- The `ssh.Permissions` data the callback attaches on accept. -/
structure Permissions where
  username : String
  authMode : String
  devboxInfo : DevboxInfo
deriving DecidableEq

instance {e a : Type} [DecidableEq e] [DecidableEq a] : DecidableEq (Except e a)
  | Except.error x, Except.error y =>
      if h : x = y then isTrue (by rw [h]) else isFalse (by intro hc; injection hc; exact h (by assumption))
  | Except.error _, Except.ok _ => isFalse (by intro hc; injection hc)
  | Except.ok _, Except.error _ => isFalse (by intro hc; injection hc)
  | Except.ok x, Except.ok y =>
      if h : x = y then isTrue (by rw [h]) else isFalse (by intro hc; injection hc; exact h (by assumption))

/-- `Gateway.publicKeyCallback` from gateway utils: the two-step resolution
of a connection into an auth mode. -/
def publicKeyCallback (L : SSHLib) (nsPre : String) (r : Registry)
    (connUser : String) (key : PubKey) : Except String Permissions :=
  match r.GetByFingerprint (FingerprintSHA256 L key) with
  | none =>
      match parseUsername nsPre connUser with
      | Except.error e => Except.error e
      | Except.ok (username, fullNamespace, devboxName) =>
          match r.GetDevboxInfo fullNamespace devboxName with
          | none => Except.error "unknown public key"
          | some info =>
              if info.PodIP = "" then
                Except.error
                  ("devbox " ++ info.Namespace ++ "/" ++ info.DevboxName ++ " not running")
              else Except.ok ⟨username, "agent-forwarding", info⟩
  | some info =>
      if info.PodIP = "" then
        Except.error
          ("devbox " ++ info.Namespace ++ "/" ++ info.DevboxName ++ " not running")
      else Except.ok ⟨connUser, "public-key", info⟩

/-! ### Claim C3 -/

/-- Counterexample to claim C3 as stated: with an unknown fingerprint and a
username that fails to parse, the callback returns the PARSER error, not the
generic unknown-public-key error — the error text does reveal that the name
(not the fingerprint) was the miss. -/
theorem C3_counterexample :
    publicKeyCallback tLib "" Registry.New "alice" 7 =
      Except.error "invalid username format: missing . separator" ∧
    "invalid username format: missing . separator" ≠ "unknown public key" := by
  exact ⟨by decide, by decide⟩

/-- Claim C3 (amended): when the fingerprint is unknown, a devbox-lookup
miss after a successful username parse is rejected with the generic
"unknown public key" error; but a username parse failure is rejected with
the parser error itself (which describes the missing separator). -/
theorem C3_unknown_key_error_amended :
    ∀ (L : SSHLib) (nsPre : String) (r : Registry) (user : String) (key : PubKey),
    r.GetByFingerprint (FingerprintSHA256 L key) = none →
    ((∀ e, parseUsername nsPre user = Except.error e →
        publicKeyCallback L nsPre r user key = Except.error e) ∧
      (∀ u fullNs db, parseUsername nsPre user = Except.ok (u, fullNs, db) →
        r.GetDevboxInfo fullNs db = none →
        publicKeyCallback L nsPre r user key = Except.error "unknown public key")) := by
  intro L nsPre r user key hfp
  constructor
  · intro e he
    unfold publicKeyCallback
    rw [hfp, he]
  · intro u fullNs db hok hdev
    simp only [publicKeyCallback, hfp, hok, hdev]

/-- Witness for the amended C3: on the empty registry, `alice` (no dot) gets
the parser error; `alice.ns-db` parses but misses the registry and gets the
generic error. -/
theorem C3_witness :
    publicKeyCallback tLib "" Registry.New "alice" 7 =
      Except.error "invalid username format: missing . separator" ∧
    publicKeyCallback tLib "" Registry.New "alice.ns-db" 7 =
      Except.error "unknown public key" := by
  constructor
  · exact (C3_unknown_key_error_amended tLib "" Registry.New "alice" 7 (by decide)).1
      _ (by decide)
  · exact (C3_unknown_key_error_amended tLib "" Registry.New "alice.ns-db" 7
      (by decide)).2 "alice" "ns" "db" (by decide) (by decide)

/-! ## The PublicKey-mode global-request pump
(src/gateway/publickey.go, handleGlobalRequestsPublicKey) -/

/-- An SSH request as the pump sees it. -/
structure Request where
  type : String
  wantReply : Bool
  payload : List Nat
deriving DecidableEq

/-- Observable actions of the global-request pump. -/
inductive GEvent where
  | replyToClient (req : Request) (ok : Bool) (payload : Option (List Nat))
  | forwardToBackend (req : Request)
deriving DecidableEq

/-- `Gateway.handleGlobalRequestsPublicKey`: processes the client global
requests in order.  `backend k` is the result of the k-th
`backendConn.SendRequest` call: `none` models a transport error, `some (ok,
resp)` the reply.  The trace records the forwards (verbatim) and every
`req.Reply` call. -/
def handleGlobalRequestsPublicKey (backend : Nat → Option (Bool × List Nat)) :
    Nat → List Request → List GEvent
  | _, [] => []
  | k, req :: rest =>
      if req.type = "tcpip-forward" ∨ req.type = "cancel-tcpip-forward" then
        (if req.wantReply then [GEvent.replyToClient req false none] else []) ++
          handleGlobalRequestsPublicKey backend k rest
      else
        GEvent.forwardToBackend req ::
          match backend k with
          | none => if req.wantReply then [GEvent.replyToClient req false none] else []
          | some (ok, resp) =>
              (if req.wantReply then [GEvent.replyToClient req ok (some resp)] else []) ++
                handleGlobalRequestsPublicKey backend (k + 1) rest

theorem forward_mem_handleGlobal (backend : Nat → Option (Bool × List Nat)) :
    ∀ (reqs : List Request) (k : Nat) (req : Request),
    GEvent.forwardToBackend req ∈ handleGlobalRequestsPublicKey backend k reqs →
    req.type ≠ "tcpip-forward" ∧ req.type ≠ "cancel-tcpip-forward" ∧ req ∈ reqs := by
  intro reqs
  induction reqs with
  | nil => intro k req h; simp [handleGlobalRequestsPublicKey] at h
  | cons q rest ih =>
      intro k req h
      by_cases hq : q.type = "tcpip-forward" ∨ q.type = "cancel-tcpip-forward"
      · rw [show handleGlobalRequestsPublicKey backend k (q :: rest) =
            (if q.wantReply then [GEvent.replyToClient q false none] else []) ++
              handleGlobalRequestsPublicKey backend k rest from by
            simp [handleGlobalRequestsPublicKey, hq]] at h
        rw [List.mem_append] at h
        rcases h with h | h
        · exfalso
          by_cases hw : q.wantReply <;> simp [hw] at h
        · obtain ⟨h1, h2, h3⟩ := ih k req h
          exact ⟨h1, h2, List.mem_cons_of_mem _ h3⟩
      · push_neg at hq
        rw [show handleGlobalRequestsPublicKey backend k (q :: rest) =
            GEvent.forwardToBackend q ::
              (match backend k with
              | none => if q.wantReply then [GEvent.replyToClient q false none] else []
              | some (ok, resp) =>
                  (if q.wantReply then [GEvent.replyToClient q ok (some resp)] else []) ++
                    handleGlobalRequestsPublicKey backend (k + 1) rest) from by
            simp [handleGlobalRequestsPublicKey, hq.1, hq.2]] at h
        rw [List.mem_cons] at h
        rcases h with h | h
        · injection h with h2
          subst h2
          exact ⟨hq.1, hq.2, List.mem_cons_self _ _⟩
        · cases hbk : backend k with
          | none =>
              rw [hbk] at h
              exfalso
              by_cases hw : q.wantReply <;> simp [hw] at h
          | some pr =>
              obtain ⟨ok, resp⟩ := pr
              rw [hbk] at h
              rw [List.mem_append] at h
              rcases h with h | h
              · exfalso
                by_cases hw : q.wantReply <;> simp [hw] at h
              · obtain ⟨h1, h2, h3⟩ := ih (k + 1) req h
                exact ⟨h1, h2, List.mem_cons_of_mem _ h3⟩

/-! ### Claim C4 -/

/-- Claim C4: in PublicKey mode, `tcpip-forward` and `cancel-tcpip-forward`
get a false reply when a reply is wanted and are never forwarded (first two
conjuncts); every other request is forwarded verbatim, with the backend
(ok, payload) propagated back when a reply is wanted (third conjunct); an
error forwarding a reply-wanted request yields a false reply to the client
and terminates the pump — the remaining requests are not processed (fourth
conjunct). -/
theorem C4_global_request_pump :
    ∀ (backend : Nat → Option (Bool × List Nat)) (k : Nat) (reqs : List Request),
    (∀ req, GEvent.forwardToBackend req ∈ handleGlobalRequestsPublicKey backend k reqs →
      req.type ≠ "tcpip-forward" ∧ req.type ≠ "cancel-tcpip-forward" ∧ req ∈ reqs) ∧
    (∀ req rest, (req.type = "tcpip-forward" ∨ req.type = "cancel-tcpip-forward") →
      handleGlobalRequestsPublicKey backend k (req :: rest) =
        (if req.wantReply then [GEvent.replyToClient req false none] else []) ++
          handleGlobalRequestsPublicKey backend k rest) ∧
    (∀ req rest ok resp, req.type ≠ "tcpip-forward" → req.type ≠ "cancel-tcpip-forward" →
      backend k = some (ok, resp) →
      handleGlobalRequestsPublicKey backend k (req :: rest) =
        GEvent.forwardToBackend req ::
          (if req.wantReply then [GEvent.replyToClient req ok (some resp)] else []) ++
            handleGlobalRequestsPublicKey backend (k + 1) rest) ∧
    (∀ req rest, req.type ≠ "tcpip-forward" → req.type ≠ "cancel-tcpip-forward" →
      backend k = none →
      handleGlobalRequestsPublicKey backend k (req :: rest) =
        GEvent.forwardToBackend req ::
          (if req.wantReply then [GEvent.replyToClient req false none] else [])) := by
  intro backend k reqs
  refine ⟨fun req h => forward_mem_handleGlobal backend reqs k req h, ?_, ?_, ?_⟩
  · intro req rest hq
    simp [handleGlobalRequestsPublicKey, hq]
  · intro req rest ok resp h1 h2 hbk
    simp [handleGlobalRequestsPublicKey, h1, h2, hbk]
  · intro req rest h1 h2 hbk
    simp [handleGlobalRequestsPublicKey, h1, h2, hbk]

/-- Witness for C4 at a concrete input: a reply-wanted `tcpip-forward` gets
a false reply and is not forwarded; the following request is forwarded
verbatim with its reply propagated. -/
theorem C4_witness :
    (GEvent.forwardToBackend ⟨"tcpip-forward", true, []⟩ ∉
      handleGlobalRequestsPublicKey (fun _ => some (true, [9]))
        0 [⟨"tcpip-forward", true, []⟩, ⟨"env", true, [1]⟩]) ∧
    handleGlobalRequestsPublicKey (fun _ => some (true, [9]))
        0 [⟨"tcpip-forward", true, []⟩, ⟨"env", true, [1]⟩] =
      [GEvent.replyToClient ⟨"tcpip-forward", true, []⟩ false none,
        GEvent.forwardToBackend ⟨"env", true, [1]⟩,
        GEvent.replyToClient ⟨"env", true, [1]⟩ true (some [9])] := by
  constructor
  · intro h
    have h2 := ((C4_global_request_pump (fun _ => some (true, [9])) 0
      [⟨"tcpip-forward", true, []⟩, ⟨"env", true, [1]⟩]).1 _ h).1
    exact h2 rfl
  · decide

/-! ## The AgentForwarding initial-request window
(src/gateway/agent.go, handleSessionRequests / handleSessionChannel) -/

/-- One outcome of the select loop: a request arrives, the request channel
closes, or the timer fires. -/
inductive WindowItem where
  | req (r : Request)
  | timerFired
  | channelClosed
deriving DecidableEq

/-- `SessionRequestsResult` from agent.go.  `agentChannel` is `true` when a
non-nil agent channel was obtained from `createAgentChannelToClient`. -/
structure SessionRequestsResult where
  agentChannel : Bool
  cachedRequests : List Request
deriving DecidableEq

/-- Observable actions of the session-channel handler. -/
inductive SessionEvent where
  | openAgentPipe
  | writeAgentFailDiag
  | dialBackend
  | closeAgentPipe
  | writeDialFailDiag
  | openBackendSession
  | forwardCached (r : Request)
  | proxyStart
deriving DecidableEq

/-- The select loop of `handleSessionRequests`.  `agentOk` models whether
`createAgentChannelToClient` succeeds.  The result is `none` while the input
schedule is exhausted without the loop returning, `some res` when the Go
function returns `res` (where the Go `nil` result is the inner `none`); the
event list records the agent-pipe open attempt. -/
def windowLoop (agentOk : Bool) :
    List Request → List WindowItem →
      Option (Option SessionRequestsResult) × List SessionEvent
  | _, [] => (none, [])
  | cached, WindowItem.channelClosed :: _ => (some (some ⟨false, cached⟩), [])
  | cached, WindowItem.timerFired :: _ => (some (some ⟨false, cached⟩), [])
  | cached, WindowItem.req r :: rest =>
      if r.type = "auth-agent-req@openssh.com" then
        (some (some ⟨agentOk, cached ++ [r]⟩), [SessionEvent.openAgentPipe])
      else if cached.length < 6 then
        windowLoop agentOk (cached ++ [r]) rest
      else (some none, [])

/-- `Gateway.handleSessionRequests`: the window starts with an empty cache. -/
def handleSessionRequests (agentOk : Bool) (items : List WindowItem) :
    Option (Option SessionRequestsResult) × List SessionEvent :=
  windowLoop agentOk [] items

/-- `Gateway.handleSessionChannel`: runs the initial-request window on the
accepted session channel, then either writes the failure diagnostic or dials
the backend, closes the agent pipe, opens the backend session channel,
replays the cached requests and starts the proxy.  `dialOk` and `openOk`
model the backend dial and channel-open outcomes. -/
def handleSessionChannel (agentOk dialOk openOk : Bool) (items : List WindowItem) :
    Option (List SessionEvent) :=
  match windowLoop agentOk [] items with
  | (none, _) => none
  | (some res, wevs) =>
      some (wevs ++
        match res with
        | none => [SessionEvent.writeAgentFailDiag]
        | some result =>
            if result.agentChannel = false then [SessionEvent.writeAgentFailDiag]
            else
              [SessionEvent.dialBackend, SessionEvent.closeAgentPipe] ++
                if dialOk = false then [SessionEvent.writeDialFailDiag]
                else
                  [SessionEvent.openBackendSession] ++
                    if openOk = false then []
                    else result.cachedRequests.map SessionEvent.forwardCached ++
                      [SessionEvent.proxyStart])

theorem windowLoop_cache_bound (agentOk : Bool) :
    ∀ (items : List WindowItem) (cached : List Request),
    (∀ q ∈ cached, q.type ≠ "auth-agent-req@openssh.com") → cached.length ≤ 6 →
    ∀ res evs, windowLoop agentOk cached items = (some (some res), evs) →
    (res.cachedRequests.filter
      (fun q => q.type ≠ "auth-agent-req@openssh.com")).length ≤ 6 := by
  intro items
  induction items with
  | nil =>
      intro cached _ _ res evs h
      simp [windowLoop] at h
  | cons it rest ih =>
      intro cached hna hlen res evs h
      cases it with
      | channelClosed =>
          simp only [windowLoop] at h
          injection h with h1 h2
          injection h1 with h1
          injection h1 with h1
          rw [← h1]
          exact le_trans (List.length_filter_le _ _) hlen
      | timerFired =>
          simp only [windowLoop] at h
          injection h with h1 h2
          injection h1 with h1
          injection h1 with h1
          rw [← h1]
          exact le_trans (List.length_filter_le _ _) hlen
      | req r =>
          by_cases hr : r.type = "auth-agent-req@openssh.com"
          · simp only [windowLoop, hr, if_pos] at h
            injection h with h1 h2
            injection h1 with h1
            injection h1 with h1
            rw [← h1]
            show ((cached ++ [r]).filter
              (fun q => q.type ≠ "auth-agent-req@openssh.com")).length ≤ 6
            rw [List.filter_append]
            have hfr : [r].filter (fun q => q.type ≠ "auth-agent-req@openssh.com") = [] := by
              simp [hr]
            rw [hfr, List.append_nil]
            exact le_trans (List.length_filter_le _ _) hlen
          · by_cases hl : cached.length < 6
            · rw [show windowLoop agentOk cached (WindowItem.req r :: rest) =
                  windowLoop agentOk (cached ++ [r]) rest from by
                simp [windowLoop, hr, hl]] at h
              refine ih (cached ++ [r]) ?_ ?_ res evs h
              · intro q hq
                rw [List.mem_append] at hq
                rcases hq with hq | hq
                · exact hna q hq
                · rw [List.mem_singleton] at hq
                  subst hq
                  exact hr
              · simp only [List.length_append, List.length_singleton]
                omega
            · rw [show windowLoop agentOk cached (WindowItem.req r :: rest) =
                  (some none, []) from by simp [windowLoop, hr, hl]] at h
              injection h with h1 h2
              injection h1 with h1
              exact absurd h1.symm (by simp)

theorem windowLoop_cap_hit (agentOk : Bool) :
    ∀ (rs : List Request) (cached : List Request) (rest : List WindowItem),
    (∀ q ∈ rs, q.type ≠ "auth-agent-req@openssh.com") →
    rs.length + cached.length = 7 → cached.length ≤ 6 →
    windowLoop agentOk cached (rs.map WindowItem.req ++ rest) = (some none, []) := by
  intro rs
  induction rs with
  | nil =>
      intro cached rest _ hsum hle
      simp at hsum
      omega
  | cons r rs2 ih =>
      intro cached rest hna hsum hle
      have hr : r.type ≠ "auth-agent-req@openssh.com" := hna r (by simp)
      rw [List.map_cons, List.cons_append]
      by_cases hl : cached.length < 6
      · rw [show windowLoop agentOk cached
            (WindowItem.req r :: (rs2.map WindowItem.req ++ rest)) =
            windowLoop agentOk (cached ++ [r]) (rs2.map WindowItem.req ++ rest) from by
          simp [windowLoop, hr, hl]]
        refine ih (cached ++ [r]) rest (fun q hq => hna q (by simp [hq])) ?_ ?_
        · rw [List.length_append]
          simp at hsum ⊢
          omega
        · simp only [List.length_append, List.length_singleton]
          omega
      · simp [windowLoop, hr, hl]

/-! ### Claim C6 -/

/-- Claim C6: the cache of non-agent requests never exceeds 6 entries in any
result the window returns, and when the 6-request cap is hit without an
agent request (seven non-agent requests arrive first), the window returns
the failure result `nil` having opened no agent pipe, and the session is
abandoned: the handler only writes the diagnostic — no agent pipe is opened
and no backend dial occurs. -/
theorem C6_initial_request_window :
    ∀ (agentOk dialOk openOk : Bool) (items : List WindowItem),
    (∀ res evs, handleSessionRequests agentOk items = (some (some res), evs) →
      (res.cachedRequests.filter
        (fun q => q.type ≠ "auth-agent-req@openssh.com")).length ≤ 6) ∧
    (∀ (rs : List Request) (rest : List WindowItem),
      (∀ q ∈ rs, q.type ≠ "auth-agent-req@openssh.com") → rs.length = 7 →
      items = rs.map WindowItem.req ++ rest →
      handleSessionRequests agentOk items = (some none, []) ∧
      ∀ evs2, handleSessionChannel agentOk dialOk openOk items = some evs2 →
        SessionEvent.openAgentPipe ∉ evs2 ∧ SessionEvent.dialBackend ∉ evs2 ∧
        SessionEvent.writeAgentFailDiag ∈ evs2) := by
  intro agentOk dialOk openOk items
  constructor
  · intro res evs h
    exact windowLoop_cache_bound agentOk items [] (by simp) (by simp) res evs h
  · intro rs rest hna hlen hitems
    have hwin : windowLoop agentOk [] items = (some none, []) := by
      rw [hitems]
      exact windowLoop_cap_hit agentOk rs [] rest hna (by simp [hlen]) (by simp)
    refine ⟨hwin, ?_⟩
    intro evs2 h2
    unfold handleSessionChannel at h2
    rw [hwin] at h2
    injection h2 with h2
    have h3 : evs2 = [SessionEvent.writeAgentFailDiag] := by rw [← h2]; rfl
    subst h3
    exact ⟨by decide, by decide, by decide⟩

/-- Witness for C6 at a concrete input: seven `pty-req` style requests with
no agent request abandon the session with only the diagnostic written. -/
theorem C6_witness :
    handleSessionRequests true
      (List.replicate 7 (WindowItem.req ⟨"pty-req", true, []⟩)) = (some none, []) ∧
    handleSessionChannel true true true
      (List.replicate 7 (WindowItem.req ⟨"pty-req", true, []⟩)) =
      some [SessionEvent.writeAgentFailDiag] ∧
    SessionEvent.dialBackend ∉ [SessionEvent.writeAgentFailDiag] := by
  have h := (C6_initial_request_window true true true
      (List.replicate 7 (WindowItem.req ⟨"pty-req", true, []⟩))).2
    (List.replicate 7 ⟨"pty-req", true, []⟩) [] (by decide) (by decide) (by decide)
  refine ⟨h.1, by decide, ?_⟩
  exact (h.2 [SessionEvent.writeAgentFailDiag] (by decide)).2.1

/-! ## Deterministic host-key derivation (hostkey package, part_000)

The cryptographic primitives (crypto/sha256, crypto/ed25519,
ssh.NewSignerFromKey) are external; they are abstracted as the pure
functions of `HostKeyPrims`, with byte strings as `List Nat`.  The code
composes them with no other input, so the derivation is a pure function of
the seed string.
-/

structure HostKeyPrims where
  sha256Sum : String → List Nat
  newKeyFromSeed : List Nat → List Nat
  newSignerFromKey : List Nat → Except String (List Nat)
  signerPublicKey : List Nat → List Nat
  pubHash : List Nat → String

/-- `GenerateDeterministicKey`: SHA-256 of the seed string is the Ed25519
seed; the signer is built from the resulting private key. -/
def GenerateDeterministicKey (P : HostKeyPrims) (seed : String) :
    Except String (List Nat) :=
  P.newSignerFromKey (P.newKeyFromSeed (P.sha256Sum seed))

/-- `hostkey.Load`: `os.Getenv` yields the empty string when the variable is
unset, in which case the default seed is used. -/
def hostkeyLoad (P : HostKeyPrims) (envSeed : String) : Except String (List Nat) :=
  GenerateDeterministicKey P (if envSeed = "" then "sealos-devbox" else envSeed)

/-- The public key of the derived signer. -/
def hostPublicKey (P : HostKeyPrims) (seed : String) : Except String (List Nat) :=
  (GenerateDeterministicKey P seed).map P.signerPublicKey

/-- The `ssh.FingerprintSHA256` of the derived public key. -/
def hostFingerprint (P : HostKeyPrims) (seed : String) : Except String String :=
  (hostPublicKey P seed).map (fun pub => "SHA256:" ++ P.pubHash pub)

/-- The digest-to-public-key composition of the derivation. -/
def pubOfDigest (P : HostKeyPrims) (d : List Nat) : Except String (List Nat) :=
  (P.newSignerFromKey (P.newKeyFromSeed d)).map P.signerPublicKey

/-! ### Claim C8 -/

/-- Claim C8: `Load` defaults the seed to sealos-devbox when the environment
variable is empty/unset and otherwise passes it through; the derivation is a
pure function of SHA-256 of the seed with no other randomness, so equal
digests (in particular, equal seeds) give byte-identical public keys and
fingerprints; and when the digests differ and the digest-to-public-key
composition is injective (collision-freeness of the Ed25519 primitives),
different seeds give different public keys. -/
theorem C8_hostkey_derivation :
    ∀ (P : HostKeyPrims) (env s1 s2 : String),
    (hostkeyLoad P "" = GenerateDeterministicKey P "sealos-devbox") ∧
    (env ≠ "" → hostkeyLoad P env = GenerateDeterministicKey P env) ∧
    (P.sha256Sum s1 = P.sha256Sum s2 →
      hostPublicKey P s1 = hostPublicKey P s2 ∧
      hostFingerprint P s1 = hostFingerprint P s2) ∧
    (Function.Injective (pubOfDigest P) → P.sha256Sum s1 ≠ P.sha256Sum s2 →
      hostPublicKey P s1 ≠ hostPublicKey P s2) := by
  intro P env s1 s2
  refine ⟨by simp [hostkeyLoad], fun h => by simp [hostkeyLoad, h], ?_, ?_⟩
  · intro h
    constructor
    · simp only [hostPublicKey, GenerateDeterministicKey, h]
    · simp only [hostFingerprint, hostPublicKey, GenerateDeterministicKey, h]
  · intro hinj hne hcon
    apply hne
    apply hinj
    exact hcon

/-- Concrete primitives for the witness: byte-faithful and collision-free on
the inputs used. -/
def tPrims : HostKeyPrims :=
  { sha256Sum := fun s => s.toList.map Char.toNat,
    newKeyFromSeed := id,
    newSignerFromKey := Except.ok,
    signerPublicKey := id,
    pubHash := fun _ => "h" }

/-- Witness for C8 at concrete inputs. -/
theorem C8_witness :
    hostkeyLoad tPrims "myseed" = GenerateDeterministicKey tPrims "myseed" ∧
    hostPublicKey tPrims "a" = hostPublicKey tPrims "a" ∧
    hostFingerprint tPrims "a" = hostFingerprint tPrims "a" ∧
    hostPublicKey tPrims "a" ≠ hostPublicKey tPrims "b" := by
  have h3 := (C8_hostkey_derivation tPrims "" "a" "a").2.2.1 rfl
  refine ⟨(C8_hostkey_derivation tPrims "myseed" "a" "b").2.1 (by decide),
    h3.1, h3.2,
    (C8_hostkey_derivation tPrims "" "a" "b").2.2.2 ?_ (by decide)⟩
  intro x y h
  simpa [pubOfDigest, tPrims] using h

/-! ## The bidirectional channel proxy
(src/gateway/utils.go, proxyChannelWithRequests)

The procedure is concurrent: the main routine starts the two request pumps
(`proxyRequests clientReqs backendChannel` and `proxyRequests backendReqs
channel`) and one data-copy goroutine, runs the other copy inline, waits for
the copy goroutine (`copyWg.Wait`), half-closes both write sides, waits for
BOTH pumps (`wg.Wait`), and only then fully closes both channels.  It is
modelled as a small-step machine over four threads driven by an arbitrary
schedule; the safety theorems hold for every interleaving.
-/

/-- Observable events of the proxy. -/
inductive PEvent where
  | sendToBackend (r : Request)
  | replyCB (r : Request) (ok : Bool)
  | sendToClient (r : Request)
  | replyBC (r : Request) (ok : Bool)
  | copyCBDone
  | copyBCDone
  | closeWriteC
  | closeWriteB
  | pumpCBret
  | pumpBCret
  | closeC
  | closeB
deriving DecidableEq

/-- Oracles for the two `SendRequest` call sites: whether the call errors
and what boolean it returns. -/
structure ProxyEnv where
  failCB : Request → Bool
  okCB : Request → Bool
  failBC : Request → Bool
  okBC : Request → Bool

/-- The machine state: the main routine program counter, the copy-goroutine
completion flag, each pump's remaining input and return flag, and the event
trace (newest events appended at the end). -/
structure ProxyState where
  mainPC : Nat
  copyDone : Bool
  pumpCBrem : List Request
  pumpCBdone : Bool
  pumpBCrem : List Request
  pumpBCdone : Bool
  trace : List PEvent
deriving DecidableEq

inductive Tid where
  | main
  | goCopy
  | goPumpCB
  | goPumpBC
deriving DecidableEq

/-- One atomic step of the chosen thread; a blocked or finished thread
leaves the state unchanged.  Main: pc 0 = inline client-to-backend copy;
pc 1 = `copyWg.Wait`; pc 2, 3 = `CloseWrite` on both channels; pc 4 =
`wg.Wait` for both pumps; pc 5, 6 = `Close` on the client and backend
channel.  A pump step processes one request (send, then reply when a reply
is wanted, then return on a send error) or returns when its input is
drained. -/
def pstep (E : ProxyEnv) (s : ProxyState) : Tid → ProxyState
  | Tid.main =>
      match s.mainPC with
      | 0 => { s with mainPC := 1, trace := s.trace ++ [PEvent.copyCBDone] }
      | 1 => if s.copyDone then { s with mainPC := 2 } else s
      | 2 => { s with mainPC := 3, trace := s.trace ++ [PEvent.closeWriteC] }
      | 3 => { s with mainPC := 4, trace := s.trace ++ [PEvent.closeWriteB] }
      | 4 => if s.pumpCBdone ∧ s.pumpBCdone then { s with mainPC := 5 } else s
      | 5 => { s with mainPC := 6, trace := s.trace ++ [PEvent.closeC] }
      | 6 => { s with mainPC := 7, trace := s.trace ++ [PEvent.closeB] }
      | _ => s
  | Tid.goCopy =>
      if s.copyDone then s
      else { s with copyDone := true, trace := s.trace ++ [PEvent.copyBCDone] }
  | Tid.goPumpCB =>
      if s.pumpCBdone then s
      else
        match s.pumpCBrem with
        | [] => { s with pumpCBdone := true, trace := s.trace ++ [PEvent.pumpCBret] }
        | r :: rest =>
            if E.failCB r then
              { s with
                  pumpCBrem := rest, pumpCBdone := true,
                  trace := s.trace ++ (PEvent.sendToBackend r ::
                    (if r.wantReply then [PEvent.replyCB r (E.okCB r)] else []) ++
                      [PEvent.pumpCBret]) }
            else
              { s with
                  pumpCBrem := rest,
                  trace := s.trace ++ (PEvent.sendToBackend r ::
                    (if r.wantReply then [PEvent.replyCB r (E.okCB r)] else [])) }
  | Tid.goPumpBC =>
      if s.pumpBCdone then s
      else
        match s.pumpBCrem with
        | [] => { s with pumpBCdone := true, trace := s.trace ++ [PEvent.pumpBCret] }
        | r :: rest =>
            if E.failBC r then
              { s with
                  pumpBCrem := rest, pumpBCdone := true,
                  trace := s.trace ++ (PEvent.sendToClient r ::
                    (if r.wantReply then [PEvent.replyBC r (E.okBC r)] else []) ++
                      [PEvent.pumpBCret]) }
            else
              { s with
                  pumpBCrem := rest,
                  trace := s.trace ++ (PEvent.sendToClient r ::
                    (if r.wantReply then [PEvent.replyBC r (E.okBC r)] else [])) }

/-- Run the machine under a schedule. -/
def prun (E : ProxyEnv) (s0 : ProxyState) (sched : List Tid) : ProxyState :=
  sched.foldl (pstep E) s0

/-- The initial state of `proxyChannelWithRequests`. -/
def pinit (clientReqs backendReqs : List Request) : ProxyState :=
  { mainPC := 0, copyDone := false, pumpCBrem := clientReqs, pumpCBdone := false,
    pumpBCrem := backendReqs, pumpBCdone := false, trace := [] }

/-! ### Positions in traces -/

theorem pget_append_left {α : Type} (l1 l2 : List α) (n : Nat) (x : α)
    (h : l1[n]? = some x) : (l1 ++ l2)[n]? = some x := by
  have hlt : n < l1.length := (List.getElem?_eq_some.mp h).1
  rw [List.getElem?_append, if_pos hlt]
  exact h

theorem pget_mem_pos {α : Type} (l : List α) (x : α) (h : x ∈ l) :
    ∃ n, n < l.length ∧ l[n]? = some x := by
  obtain ⟨n, hn⟩ := List.getElem?_of_mem h
  exact ⟨n, (List.getElem?_eq_some.mp hn).1, hn⟩

theorem pget_append_split {α : Type} (l1 l2 : List α) (n : Nat) (x : α)
    (h : (l1 ++ l2)[n]? = some x) :
    l1[n]? = some x ∨ (l1.length ≤ n ∧ l2[n - l1.length]? = some x) := by
  rw [List.getElem?_append] at h
  by_cases hlt : n < l1.length
  · rw [if_pos hlt] at h; exact Or.inl h
  · rw [if_neg hlt] at h; exact Or.inr ⟨Nat.le_of_not_lt hlt, h⟩

/-- Every full close in the trace is preceded by the return of both request
pumps. -/
def TraceCloseOrd (tr : List PEvent) : Prop :=
  ∀ n : Nat, (tr[n]? = some PEvent.closeC ∨ tr[n]? = some PEvent.closeB) →
    (∃ j : Nat, j < n ∧ tr[j]? = some PEvent.pumpCBret) ∧
    (∃ j : Nat, j < n ∧ tr[j]? = some PEvent.pumpBCret)

/-- Every close of the client channel is preceded by the delivery of a
prefix of the backend requests that is either everything or ends at the
first send error. -/
def TraceDeliv (E : ProxyEnv) (full : List Request) (tr : List PEvent) : Prop :=
  ∀ n : Nat, tr[n]? = some PEvent.closeC →
    ∃ P rem, full = P ++ rem ∧
      (∀ r ∈ P, ∃ j : Nat, j < n ∧ tr[j]? = some (PEvent.sendToClient r)) ∧
      (rem = [] ∨ ∃ P0 rl, P = P0 ++ [rl] ∧ E.failBC rl = true)

theorem traceCloseOrd_append (tr evs : List PEvent) (h : TraceCloseOrd tr)
    (hc : PEvent.closeC ∉ evs) (hb : PEvent.closeB ∉ evs) :
    TraceCloseOrd (tr ++ evs) := by
  intro n hn
  have hsplit : tr[n]? = some PEvent.closeC ∨ tr[n]? = some PEvent.closeB := by
    rcases hn with hn | hn
    · rcases pget_append_split tr evs n _ hn with h2 | ⟨_, h2⟩
      · exact Or.inl h2
      · exact absurd (List.getElem?_mem h2) hc
    · rcases pget_append_split tr evs n _ hn with h2 | ⟨_, h2⟩
      · exact Or.inr h2
      · exact absurd (List.getElem?_mem h2) hb
  obtain ⟨⟨j1, hj1, he1⟩, ⟨j2, hj2, he2⟩⟩ := h n hsplit
  exact ⟨⟨j1, hj1, pget_append_left _ _ _ _ he1⟩, ⟨j2, hj2, pget_append_left _ _ _ _ he2⟩⟩

theorem traceCloseOrd_snoc_ret (tr : List PEvent) (e : PEvent) (h : TraceCloseOrd tr)
    (hcb : PEvent.pumpCBret ∈ tr) (hbc : PEvent.pumpBCret ∈ tr) :
    TraceCloseOrd (tr ++ [e]) := by
  intro n hn
  have hc : (tr[n]? = some PEvent.closeC ∨ tr[n]? = some PEvent.closeB) ∨ tr.length ≤ n := by
    rcases hn with hn | hn
    · rcases pget_append_split tr [e] n _ hn with h2 | ⟨h2, _⟩
      · exact Or.inl (Or.inl h2)
      · exact Or.inr h2
    · rcases pget_append_split tr [e] n _ hn with h2 | ⟨h2, _⟩
      · exact Or.inl (Or.inr h2)
      · exact Or.inr h2
  rcases hc with hc | hc
  · obtain ⟨⟨j1, hj1, he1⟩, ⟨j2, hj2, he2⟩⟩ := h n hc
    exact ⟨⟨j1, hj1, pget_append_left _ _ _ _ he1⟩,
      ⟨j2, hj2, pget_append_left _ _ _ _ he2⟩⟩
  · obtain ⟨j1, hj1, he1⟩ := pget_mem_pos tr _ hcb
    obtain ⟨j2, hj2, he2⟩ := pget_mem_pos tr _ hbc
    exact ⟨⟨j1, Nat.lt_of_lt_of_le hj1 hc, pget_append_left _ _ _ _ he1⟩,
      ⟨j2, Nat.lt_of_lt_of_le hj2 hc, pget_append_left _ _ _ _ he2⟩⟩

theorem traceDeliv_append (E : ProxyEnv) (full : List Request) (tr evs : List PEvent)
    (h : TraceDeliv E full tr) (hc : PEvent.closeC ∉ evs) :
    TraceDeliv E full (tr ++ evs) := by
  intro n hn
  rcases pget_append_split tr evs n _ hn with h2 | ⟨_, h2⟩
  · obtain ⟨P, rem, hfull, hsend, hstop⟩ := h n h2
    refine ⟨P, rem, hfull, ?_, hstop⟩
    intro r hr
    obtain ⟨j, hj, he⟩ := hsend r hr
    exact ⟨j, hj, pget_append_left _ _ _ _ he⟩
  · exact absurd (List.getElem?_mem h2) hc

theorem traceDeliv_snoc (E : ProxyEnv) (full : List Request) (tr : List PEvent)
    (e : PEvent) (h : TraceDeliv E full tr)
    (hP : ∃ P rem, full = P ++ rem ∧
      (∀ r ∈ P, PEvent.sendToClient r ∈ tr) ∧
      (rem = [] ∨ ∃ P0 rl, P = P0 ++ [rl] ∧ E.failBC rl = true)) :
    TraceDeliv E full (tr ++ [e]) := by
  intro n hn
  rcases pget_append_split tr [e] n _ hn with h2 | ⟨h2, _⟩
  · obtain ⟨P, rem, hfull, hsend, hstop⟩ := h n h2
    refine ⟨P, rem, hfull, ?_, hstop⟩
    intro r hr
    obtain ⟨j, hj, he⟩ := hsend r hr
    exact ⟨j, hj, pget_append_left _ _ _ _ he⟩
  · obtain ⟨P, rem, hfull, hsend, hstop⟩ := hP
    refine ⟨P, rem, hfull, ?_, hstop⟩
    intro r hr
    obtain ⟨j, hj, he⟩ := pget_mem_pos tr _ (hsend r hr)
    exact ⟨j, Nat.lt_of_lt_of_le hj h2, pget_append_left _ _ _ _ he⟩

/-- The inductive invariant of the proxy machine. -/
structure PInv (E : ProxyEnv) (full : List Request) (s : ProxyState) : Prop where
  pcDone : 5 ≤ s.mainPC → s.pumpCBdone = true ∧ s.pumpBCdone = true
  cbRet : s.pumpCBdone = true → PEvent.pumpCBret ∈ s.trace
  bcRet : s.pumpBCdone = true → PEvent.pumpBCret ∈ s.trace
  bcProg : ∃ P, full = P ++ s.pumpBCrem ∧
    (∀ r ∈ P, PEvent.sendToClient r ∈ s.trace) ∧
    (s.pumpBCdone = true → s.pumpBCrem = [] ∨
      ∃ P0 rl, P = P0 ++ [rl] ∧ E.failBC rl = true)
  ord : TraceCloseOrd s.trace
  deliv : TraceDeliv E full s.trace

theorem pinv_init (E : ProxyEnv) (clientReqs backendReqs : List Request) :
    PInv E backendReqs (pinit clientReqs backendReqs) := by
  refine ⟨?_, ?_, ?_, ?_, ?_, ?_⟩
  · intro h; simp [pinit] at h
  · intro h; simp [pinit] at h
  · intro h; simp [pinit] at h
  · exact ⟨[], rfl, by simp, by intro h; simp [pinit] at h⟩
  · intro n hn; simp [pinit] at hn
  · intro n hn; simp [pinit] at hn

/-- Frame lemma: a step that only appends non-close events to the trace
(possibly consuming client-pump input) preserves the invariant. -/
theorem pinv_of_eqs (E : ProxyEnv) (full : List Request) (s s2 : ProxyState)
    (evs : List PEvent) (h : PInv E full s)
    (htr : s2.trace = s.trace ++ evs)
    (hpc : 5 ≤ s2.mainPC → 5 ≤ s.mainPC)
    (hcb : s2.pumpCBdone = s.pumpCBdone)
    (hbc : s2.pumpBCdone = s.pumpBCdone)
    (hbrem : s2.pumpBCrem = s.pumpBCrem)
    (hc : PEvent.closeC ∉ evs) (hb : PEvent.closeB ∉ evs) :
    PInv E full s2 := by
  refine ⟨?_, ?_, ?_, ?_, ?_, ?_⟩
  · intro hd
    rw [hcb, hbc]
    exact h.pcDone (hpc hd)
  · intro hd
    rw [hcb] at hd
    rw [htr]
    exact List.mem_append_left _ (h.cbRet hd)
  · intro hd
    rw [hbc] at hd
    rw [htr]
    exact List.mem_append_left _ (h.bcRet hd)
  · obtain ⟨P, hfull, hsend, hstop⟩ := h.bcProg
    rw [hbrem, hbc, htr]
    exact ⟨P, hfull, fun r hr => List.mem_append_left _ (hsend r hr), hstop⟩
  · rw [htr]
    exact traceCloseOrd_append _ _ h.ord hc hb
  · rw [htr]
    exact traceDeliv_append E full _ _ h.deliv hc

theorem pinv_step (E : ProxyEnv) (full : List Request) (s : ProxyState) (t : Tid)
    (h : PInv E full s) : PInv E full (pstep E s t) := by
  cases t with
  | main =>
      rcases hpc : s.mainPC with _ | _ | _ | _ | _ | _ | _ | n
      · -- pc 0: inline copy finishes
        simp only [pstep, hpc]
        exact pinv_of_eqs E full s _ [PEvent.copyCBDone] h rfl
          (fun hd => absurd hd (by simp)) rfl rfl rfl (by simp) (by simp)
      · -- pc 1: copyWg.Wait
        simp only [pstep, hpc]
        by_cases hcd : s.copyDone = true
        · rw [if_pos hcd]
          exact pinv_of_eqs E full s _ [] h (by simp)
            (fun hd => absurd hd (by simp)) rfl rfl rfl (by simp) (by simp)
        · rw [if_neg hcd]; exact h
      · -- pc 2: CloseWrite client
        simp only [pstep, hpc]
        exact pinv_of_eqs E full s _ [PEvent.closeWriteC] h rfl
          (fun hd => absurd hd (by simp)) rfl rfl rfl (by simp) (by simp)
      · -- pc 3: CloseWrite backend
        simp only [pstep, hpc]
        exact pinv_of_eqs E full s _ [PEvent.closeWriteB] h rfl
          (fun hd => absurd hd (by simp)) rfl rfl rfl (by simp) (by simp)
      · -- pc 4: wg.Wait for both pumps
        simp only [pstep, hpc]
        by_cases hg : s.pumpCBdone = true ∧ s.pumpBCdone = true
        · rw [if_pos hg]
          exact ⟨fun _ => hg, h.cbRet, h.bcRet, h.bcProg, h.ord, h.deliv⟩
        · rw [if_neg hg]; exact h
      · -- pc 5: Close client channel
        simp only [pstep, hpc]
        have hdones := h.pcDone (by rw [hpc])
        refine ⟨fun _ => hdones, ?_, ?_, ?_, ?_, ?_⟩
        · intro hd
          exact List.mem_append_left _ (h.cbRet hd)
        · intro hd
          exact List.mem_append_left _ (h.bcRet hd)
        · obtain ⟨P, hfull, hsend, hstop⟩ := h.bcProg
          exact ⟨P, hfull, fun r hr => List.mem_append_left _ (hsend r hr), hstop⟩
        · exact traceCloseOrd_snoc_ret _ _ h.ord (h.cbRet hdones.1) (h.bcRet hdones.2)
        · refine traceDeliv_snoc E full _ _ h.deliv ?_
          obtain ⟨P, hfull, hsend, hstop⟩ := h.bcProg
          exact ⟨P, s.pumpBCrem, hfull, hsend, hstop hdones.2⟩
      · -- pc 6: Close backend channel
        simp only [pstep, hpc]
        have hdones := h.pcDone (by rw [hpc]; omega)
        refine ⟨fun _ => hdones, ?_, ?_, ?_, ?_, ?_⟩
        · intro hd
          exact List.mem_append_left _ (h.cbRet hd)
        · intro hd
          exact List.mem_append_left _ (h.bcRet hd)
        · obtain ⟨P, hfull, hsend, hstop⟩ := h.bcProg
          exact ⟨P, hfull, fun r hr => List.mem_append_left _ (hsend r hr), hstop⟩
        · exact traceCloseOrd_snoc_ret _ _ h.ord (h.cbRet hdones.1) (h.bcRet hdones.2)
        · exact traceDeliv_append E full _ _ h.deliv (by simp)
      · -- pc 7 or beyond: finished
        simp only [pstep, hpc]
        exact h
  | goCopy =>
      simp only [pstep]
      by_cases hcd : s.copyDone = true
      · rw [if_pos hcd]; exact h
      · rw [if_neg hcd]
        exact pinv_of_eqs E full s _ [PEvent.copyBCDone] h rfl
          (fun hd => hd) rfl rfl rfl (by simp) (by simp)
  | goPumpCB =>
      simp only [pstep]
      by_cases hdn : s.pumpCBdone = true
      · rw [if_pos hdn]; exact h
      · rw [if_neg hdn]
        cases hrem : s.pumpCBrem with
        | nil =>
            refine ⟨?_, ?_, ?_, ?_, ?_, ?_⟩
            · intro hd
              exact ⟨rfl, (h.pcDone hd).2⟩
            · intro _
              exact List.mem_append_right _ (by simp)
            · intro hd
              exact List.mem_append_left _ (h.bcRet hd)
            · obtain ⟨P, hfull, hsend, hstop⟩ := h.bcProg
              exact ⟨P, hfull, fun r hr => List.mem_append_left _ (hsend r hr), hstop⟩
            · exact traceCloseOrd_append _ _ h.ord (by simp) (by simp)
            · exact traceDeliv_append E full _ _ h.deliv (by simp)
        | cons r rest =>
            by_cases hf : E.failCB r = true
            · simp only [hf, if_true]
              have hc : PEvent.closeC ∉ (PEvent.sendToBackend r ::
                  (if r.wantReply then [PEvent.replyCB r (E.okCB r)] else []) ++
                    [PEvent.pumpCBret]) := by
                by_cases hw : r.wantReply = true <;> simp [hw]
              have hb : PEvent.closeB ∉ (PEvent.sendToBackend r ::
                  (if r.wantReply then [PEvent.replyCB r (E.okCB r)] else []) ++
                    [PEvent.pumpCBret]) := by
                by_cases hw : r.wantReply = true <;> simp [hw]
              refine ⟨?_, ?_, ?_, ?_, ?_, ?_⟩
              · intro hd
                exact ⟨rfl, (h.pcDone hd).2⟩
              · intro _
                refine List.mem_append_right _ ?_
                refine List.mem_cons_of_mem _ ?_
                exact List.mem_append_right _ (by simp)
              · intro hd
                exact List.mem_append_left _ (h.bcRet hd)
              · obtain ⟨P, hfull, hsend, hstop⟩ := h.bcProg
                exact ⟨P, hfull, fun q hq => List.mem_append_left _ (hsend q hq), hstop⟩
              · exact traceCloseOrd_append _ _ h.ord hc hb
              · exact traceDeliv_append E full _ _ h.deliv hc
            · simp only [hf, if_false]
              have hc : PEvent.closeC ∉ (PEvent.sendToBackend r ::
                  (if r.wantReply then [PEvent.replyCB r (E.okCB r)] else [])) := by
                by_cases hw : r.wantReply = true <;> simp [hw]
              have hb : PEvent.closeB ∉ (PEvent.sendToBackend r ::
                  (if r.wantReply then [PEvent.replyCB r (E.okCB r)] else [])) := by
                by_cases hw : r.wantReply = true <;> simp [hw]
              exact pinv_of_eqs E full s _ _ h rfl (fun hd => hd) rfl rfl rfl hc hb
  | goPumpBC =>
      simp only [pstep]
      by_cases hdn : s.pumpBCdone = true
      · rw [if_pos hdn]; exact h
      · rw [if_neg hdn]
        cases hrem : s.pumpBCrem with
        | nil =>
            refine ⟨?_, ?_, ?_, ?_, ?_, ?_⟩
            · intro hd
              exact ⟨(h.pcDone hd).1, rfl⟩
            · intro hd
              exact List.mem_append_left _ (h.cbRet hd)
            · intro _
              exact List.mem_append_right _ (by simp)
            · obtain ⟨P, hfull, hsend, hstop⟩ := h.bcProg
              rw [hrem] at hfull
              exact ⟨P, hfull, fun q hq => List.mem_append_left _ (hsend q hq),
                fun _ => Or.inl rfl⟩
            · exact traceCloseOrd_append _ _ h.ord (by simp) (by simp)
            · exact traceDeliv_append E full _ _ h.deliv (by simp)
        | cons r rest =>
            have hsplit : ∃ P, full = (P ++ [r]) ++ rest ∧
                (∀ q ∈ P, PEvent.sendToClient q ∈ s.trace) := by
              obtain ⟨P, hfull, hsend, _⟩ := h.bcProg
              rw [hrem] at hfull
              refine ⟨P, ?_, hsend⟩
              rw [hfull, List.append_assoc]
              rfl
            by_cases hf : E.failBC r = true
            · simp only [hf, if_true]
              have hc : PEvent.closeC ∉ (PEvent.sendToClient r ::
                  (if r.wantReply then [PEvent.replyBC r (E.okBC r)] else []) ++
                    [PEvent.pumpBCret]) := by
                by_cases hw : r.wantReply = true <;> simp [hw]
              have hb : PEvent.closeB ∉ (PEvent.sendToClient r ::
                  (if r.wantReply then [PEvent.replyBC r (E.okBC r)] else []) ++
                    [PEvent.pumpBCret]) := by
                by_cases hw : r.wantReply = true <;> simp [hw]
              obtain ⟨P, hfull, hsend⟩ := hsplit
              refine ⟨?_, ?_, ?_, ?_, ?_, ?_⟩
              · intro hd
                exact ⟨(h.pcDone hd).1, rfl⟩
              · intro hd
                exact List.mem_append_left _ (h.cbRet hd)
              · intro _
                refine List.mem_append_right _ ?_
                refine List.mem_cons_of_mem _ ?_
                exact List.mem_append_right _ (by simp)
              · refine ⟨P ++ [r], hfull, ?_, fun _ => Or.inr ⟨P, r, rfl, hf⟩⟩
                intro q hq
                rw [List.mem_append] at hq
                rcases hq with hq | hq
                · exact List.mem_append_left _ (hsend q hq)
                · rw [List.mem_singleton] at hq
                  subst hq
                  exact List.mem_append_right _ (by simp)
              · exact traceCloseOrd_append _ _ h.ord hc hb
              · exact traceDeliv_append E full _ _ h.deliv hc
            · simp only [hf, if_false]
              have hc : PEvent.closeC ∉ (PEvent.sendToClient r ::
                  (if r.wantReply then [PEvent.replyBC r (E.okBC r)] else [])) := by
                by_cases hw : r.wantReply = true <;> simp [hw]
              have hb : PEvent.closeB ∉ (PEvent.sendToClient r ::
                  (if r.wantReply then [PEvent.replyBC r (E.okBC r)] else [])) := by
                by_cases hw : r.wantReply = true <;> simp [hw]
              obtain ⟨P, hfull, hsend⟩ := hsplit
              refine ⟨?_, ?_, ?_, ?_, ?_, ?_⟩
              · intro hd
                exact h.pcDone hd
              · intro hd
                exact List.mem_append_left _ (h.cbRet hd)
              · intro hd
                exact absurd hd hdn
              · refine ⟨P ++ [r], hfull, ?_, fun hd => absurd hd hdn⟩
                intro q hq
                rw [List.mem_append] at hq
                rcases hq with hq | hq
                · exact List.mem_append_left _ (hsend q hq)
                · rw [List.mem_singleton] at hq
                  subst hq
                  exact List.mem_append_right _ (by simp)
              · exact traceCloseOrd_append _ _ h.ord hc hb
              · exact traceDeliv_append E full _ _ h.deliv hc

theorem pinv_run (E : ProxyEnv) (full : List Request) :
    ∀ (sched : List Tid) (s : ProxyState), PInv E full s →
    PInv E full (prun E s sched) := by
  intro sched
  induction sched with
  | nil => intro s h; exact h
  | cons t rest ih =>
      intro s h
      exact ih _ (pinv_step E full s t h)

/-! ### Claim C2 -/

/-- Claim C2: under every interleaving of the proxy threads, a full close of
the client or backend channel appears in the trace only after both request
pumps have returned (first conjunct); consequently an exit-status request
`rStar` that the backend enqueued before closing its channel — with no
send error at or before it — is delivered to the client at a position
strictly before the client-channel close (second conjunct). -/
theorem C2_proxy_close_ordering :
    ∀ (E : ProxyEnv) (clientReqs pre post : List Request) (rStar : Request)
      (sched : List Tid),
    (∀ r ∈ pre, E.failBC r = false) → E.failBC rStar = false →
    TraceCloseOrd (prun E (pinit clientReqs (pre ++ rStar :: post)) sched).trace ∧
    (∀ n : Nat,
      (prun E (pinit clientReqs (pre ++ rStar :: post)) sched).trace[n]? =
        some PEvent.closeC →
      ∃ j : Nat, j < n ∧
        (prun E (pinit clientReqs (pre ++ rStar :: post)) sched).trace[j]? =
          some (PEvent.sendToClient rStar)) := by
  intro E clientReqs pre post rStar sched hpre hstar
  have hinv := pinv_run E (pre ++ rStar :: post) sched _
    (pinv_init E clientReqs (pre ++ rStar :: post))
  refine ⟨hinv.ord, ?_⟩
  intro n hn
  obtain ⟨P, rem, hfull, hsend, hstop⟩ := hinv.deliv n hn
  have hmem : rStar ∈ P := by
    rcases hstop with hrem | ⟨P0, rl, hP, hfail⟩
    · subst hrem
      rw [List.append_nil] at hfull
      rw [← hfull]
      exact List.mem_append_right _ (List.mem_cons_self _ _)
    · by_cases hlen : P.length ≤ pre.length
      · exfalso
        have hPpre : P <+: pre := by
          have h1 : P <+: pre ++ rStar :: post := ⟨rem, hfull.symm⟩
          have h2 : pre <+: pre ++ rStar :: post := ⟨rStar :: post, rfl⟩
          rcases List.prefix_or_prefix_of_prefix h1 h2 with h3 | h3
          · exact h3
          · have h4 := List.IsPrefix.eq_of_length_le h3 hlen
            rw [← h4]
        have hrl : rl ∈ pre := by
          refine hPpre.subset ?_
          rw [hP]
          exact List.mem_append_right _ (by simp)
        rw [hpre rl hrl] at hfail
        exact absurd hfail (by simp)
      · have hlt : pre.length < P.length := Nat.lt_of_not_le hlen
        have hidx : (pre ++ rStar :: post)[pre.length]? = some rStar := by
          rw [List.getElem?_append, if_neg (by omega)]
          simp
        rw [hfull] at hidx
        rcases pget_append_split P rem _ _ hidx with h2 | ⟨h2, _⟩
        · exact List.getElem?_mem h2
        · omega
  exact hsend rStar hmem

/-- Oracles for the witness run: no send errors, replies succeed. -/
def tE : ProxyEnv :=
  { failCB := fun _ => false, okCB := fun _ => true,
    failBC := fun _ => false, okBC := fun _ => true }

/-- The trailing exit-status request of the witness run. -/
def tExitReq : Request := { type := "exit-status", wantReply := false, payload := [7] }

/-- A complete schedule of the witness run: the backend pump delivers the
exit-status and returns, the client pump returns, the copies finish, the
main routine half-closes, waits, and fully closes. -/
def tSched : List Tid :=
  [Tid.goPumpBC, Tid.goPumpBC, Tid.goPumpCB, Tid.goCopy,
    Tid.main, Tid.main, Tid.main, Tid.main, Tid.main, Tid.main, Tid.main]

/-- Witness for C2: in the concrete run the client-channel close is at
position 7 and the exit-status delivery strictly precedes it. -/
theorem C2_witness :
    (prun tE (pinit [] [tExitReq]) tSched).trace[7]? = some PEvent.closeC ∧
    ∃ j : Nat, j < 7 ∧ (prun tE (pinit [] [tExitReq]) tSched).trace[j]? =
      some (PEvent.sendToClient tExitReq) := by
  refine ⟨by decide, ?_⟩
  exact (C2_proxy_close_ordering tE [] [] [] tExitReq tSched (by simp) rfl).2 7 (by decide)

end SSHGate
